import Mathlib

/-!
# introspect: the syntax-tree-to-model transformation

A shallow embedding of `introspect.go`: the field classifier (`fieldName`, `newField`,
`FieldList.addAll`), the declaration walker (`FileBuilder.inspect` driven by `ast.Inspect`),
the file builder (`NewFileBuilder`, `FileBuilder.Build`) and the package builder
(`PackageBuilder.Build`).

Modelling conventions.
* The parsed tree (`go/ast`) is an inductive type. `Expr` holds expressions, `AstField` the
  entries of a field list and `Node` the other nodes `ast.Inspect` walks. An expression may
  hold nodes below it (a function literal holds its body), so the three are mutual.
* A Go `Field` is an interface value, so it may be nil: `Field.nil` is that value.
* A Go slice `[]Field` is nil or allocated: `none` is the nil slice and `some elems` an
  allocated one, `some []` being the empty slice that `make` and a composite literal give.
* `fail.If` panics and `fail.Using` recovers the panic inside `Build`. A function that may
  panic returns `Except Failure _`; a function that has mutated state before the panic
  returns the state together with `Option Failure`.
-/

namespace Introspect

/-! ## The parsed tree (package go/ast) -/

/-- The channel direction `ast.ChanDir`: `SEND`, `RECV`, or both bits set (`SEND | RECV`),
which the parser gives to a bidirectional `chan T`. -/
inductive ChanDir where
  | SEND
  | RECV
  | BOTH
deriving DecidableEq

mutual
/-- The expressions `ast.Expr`. The type expressions have a constructor each; every other
expression (a call, a function literal, a composite literal, an operator expression) is
`Other kind children`, with `kind` the Go name of its node type and `children` the nodes
below it in the order `ast.Walk` visits them. A `*ast.FieldList` may be a nil pointer
(`none`), as `FuncType.Results` is for a function without results. -/
inductive Expr where
  | Ident (Name : String)
  | FuncType (Params : Option (List AstField)) (Results : Option (List AstField))
  | ChanType (Dir : ChanDir) (Value : Expr)
  | StructType (Fields : Option (List AstField))
  | InterfaceType (Methods : Option (List AstField))
  | StarExpr (X : Expr)
  | ArrayType (Len : Option Expr) (Elt : Expr)
  | MapType (Key : Expr) (Value : Expr)
  | SelectorExpr (X : Expr) (Sel : String)
  | Ellipsis (Elt : Option Expr)
  | ParenExpr (X : Expr)
  | IndexExpr (X : Expr) (Index : Expr)
  | BasicLit (Value : String)
  | BadExpr
  | Other (kind : String) (children : List Node)
/-- One entry `ast.Field` of a field list: the names attached to it (none for an embedded
field or an unnamed parameter, several for `A, B int`) and its type expression. -/
inductive AstField where
  | mk (Names : List String) (Typ : Expr)
/-- The nodes `ast.Inspect` visits besides expressions and field lists. `TypeSpec` is a
type declaration with its name, its type parameter list (a nil pointer for a declaration
without type parameters) and its type; every other node (`*ast.File`, `*ast.GenDecl`,
`*ast.FuncDecl`, statements, other specs, expressions outside a type) is
`Other kind children`, with `kind` the Go name of the node type and `children` the nodes
below it in the order `ast.Walk` visits them. -/
inductive Node where
  | TypeSpec (Name : String) (TypeParams : Option (List AstField)) (Typ : Expr)
  | Other (kind : String) (children : List Node)
end

/-- The dynamic type of an expression as `%T` prints it. -/
def Expr.goType : Expr → String
  | .Ident _ => "*ast.Ident"
  | .FuncType _ _ => "*ast.FuncType"
  | .ChanType _ _ => "*ast.ChanType"
  | .StructType _ => "*ast.StructType"
  | .InterfaceType _ => "*ast.InterfaceType"
  | .StarExpr _ => "*ast.StarExpr"
  | .ArrayType _ _ => "*ast.ArrayType"
  | .MapType _ _ => "*ast.MapType"
  | .SelectorExpr _ _ => "*ast.SelectorExpr"
  | .Ellipsis _ => "*ast.Ellipsis"
  | .ParenExpr _ => "*ast.ParenExpr"
  | .IndexExpr _ _ => "*ast.IndexExpr"
  | .BasicLit _ => "*ast.BasicLit"
  | .BadExpr => "*ast.BadExpr"
  | .Other kind _ => kind

/-! ## The model (types of introspect.go) -/

/-- A value of the interface type `Field`: nil, a `TypedField`, a `*Func` or a `Chan`. The
parameters and results of a `Func` are values of the slice type `FieldList`. -/
inductive Field where
  | nil
  | TypedField (Name : String) (Typ : String)
  | Func (Name : String) (Params : Option (List Field)) (Results : Option (List Field))
  | Chan (Dir : ChanDir) (Typ : Field)

/-- The type `FieldList`, the slice type `[]Field`: `none` is the nil slice, `some elems`
an allocated slice with its elements. -/
abbrev FieldList := Option (List Field)

/-- The elements of a slice; the nil slice has none. -/
def elemsOf (f : FieldList) : List Field :=
  match f with
  | none => []
  | some elems => elems

/-- The built-in `append(s, x)` on one element: an allocated slice with the elements of
`s` followed by `x`. -/
def appendField (s : FieldList) (x : Field) : FieldList :=
  some (elemsOf s ++ [x])

/-- The test `parsed == nil` on a `Field`. -/
def Field.isNil : Field → Bool
  | .nil => true
  | _ => false

/-- The type `Interface`: the slice its `*FieldList` points to, and its name. -/
structure Interface where
  FieldList : Option (List Field)
  Name : String

/-- The type `Struct`: the slice its `*FieldList` points to, and its name. -/
structure Struct where
  FieldList : Option (List Field)
  Name : String

/-- The type `Types`. -/
structure Types where
  Interfaces : List Interface
  Structs : List Struct

/-- The type `File`, which embeds `Types`. -/
structure File extends Types where
  Name : String

/-- The type `FileBuilder`, which embeds `File`. -/
structure FileBuilder where
  File : File
  parsed : Node

/-! ## Package fail (github.com/sridharv/fail) -/

/-- One argument handed to `fail.If`. -/
inductive FailArg where
  | str (s : String)
  | idents (Names : List String)
deriving DecidableEq

/-- The arguments a failure carries from `fail.If` to the handler of `fail.Using`, which
`Build` turns into the error `errors.New(fmt.Sprint(args...))`. The error is kept as the
arguments it is printed from; `Sprint` gives its text. -/
abbrev Failure := List FailArg

/-- Modelled from the spec: the function `fail.If(condition, args...)` of the imported
package `github.com/sridharv/fail`, whose source is not part of the repository. It is the
abort half of the abort-and-recover pattern the spec describes: it panics with `args` when
`condition` is true and does nothing otherwise. This is the reading under which `fieldName`
accepts a single identifier and rejects two. -/
def failIf (condition : Bool) (args : List FailArg) : Except Failure Unit :=
  if condition then .error args else .ok ()

/-- Whether an argument is a string operand for `fmt.Sprint`. -/
def FailArg.isString : FailArg → Bool
  | .str _ => true
  | .idents _ => false

/-- The text `fmt.Sprint` prints for one operand: a string as it is, and a `[]*ast.Ident`
as its names (through `Ident.String`) between brackets, separated by blanks. -/
def FailArg.text : FailArg → String
  | .str s => s
  | .idents names => "[" ++ " ".intercalate names ++ "]"

/-- The operands of `fmt.Sprint` after the first, `prevString` telling whether the operand
before is a string: a blank goes between two operands when neither is a string. -/
def sprintRest (prevString : Bool) : List FailArg → String
  | [] => ""
  | a :: rest =>
    (if !prevString && !a.isString then " " else "") ++ a.text ++ sprintRest a.isString rest

/-- The function `fmt.Sprint(args...)` on the arguments of a failure. -/
def Sprint : Failure → String
  | [] => ""
  | a :: rest => a.text ++ sprintRest a.isString rest

/-! ## The field classifier -/

/-- The function `fieldName`. -/
def fieldName (ident : List String) : Except Failure String :=
  match ident with
  | [] => .ok ""
  | n :: rest =>
    match failIf (decide ((n :: rest).length ≠ 1))
        [.str "more than one identifier", .idents (n :: rest)] with
    | .error e => .error e
    | .ok () => .ok n

mutual
/-- The function `newField`. The two slices of a `Func` start as `make([]Field, 0)`, the
empty allocated slice. A panic inside `addAll` or inside the nested call leaves `newField`
before it returns, so the partly built `Func` is lost. -/
def newField (name : String) : Expr → Except Failure Field
  | .FuncType params results =>
    match addAll (some []) params with
    | (_, some e) => .error e
    | (ps, none) =>
      match addAll (some []) results with
      | (_, some e) => .error e
      | (rs, none) => .ok (.Func name ps rs)
  | .ChanType dir value =>
    match newField "" value with
    | .error e => .error e
    | .ok t => .ok (.Chan dir t)
  | .Ident n => .ok (.TypedField name n)
  | typed =>
    match failIf false [.str ("unsupported type:" ++ typed.goType ++ "\n")] with
    | .error e => .error e
    | .ok () => .ok .nil
/-- The method `FieldList.addAll` on the slice `f` its receiver points to (the receiver is
never a nil pointer at a call site). It returns the slice as it stands when the method
returns or panics, and the failure if it panicked. -/
def addAll (f : FieldList) : Option (List AstField) → FieldList × Option Failure
  | none => (f, none)
  | some list => addAllLoop f list
/-- The loop `for _, field := range list.List` of `addAll`. -/
def addAllLoop (f : FieldList) : List AstField → FieldList × Option Failure
  | [] => (f, none)
  | .mk names typ :: rest =>
    match fieldName names with
    | .error e => (f, some e)
    | .ok name =>
      match newField name typ with
      | .error e => (f, some e)
      | .ok parsed =>
        if parsed.isNil then addAllLoop f rest
        else addAllLoop (appendField f parsed) rest
end

/-! ## The declaration walker and the file builder -/

/-- The method `Types.Interface`: a new entry with the empty slice `FieldList{}` goes to
the end of `Interfaces`; the pointer returned is the `*FieldList` of that last entry. -/
def Types.Interface (w : Types) (name : String) : Types :=
  { w with Interfaces := w.Interfaces ++ [⟨some [], name⟩] }

/-- The method `Types.Struct`: a new entry with the empty slice `FieldList{}` goes to the
end of `Structs`; the pointer returned is the `*FieldList` of that last entry. -/
def Types.Struct (w : Types) (name : String) : Types :=
  { w with Structs := w.Structs ++ [⟨some [], name⟩] }

/-- Replace the last element of a list. -/
def setLast {α : Type} (g : α → α) : List α → List α
  | [] => []
  | [a] => [g a]
  | a :: b :: rest => a :: setLast g (b :: rest)

/-- A write through the pointer `Types.Interface` returned: the slice of the last
entry. -/
def Types.storeInterface (w : Types) (fl : FieldList) : Types :=
  { w with Interfaces := setLast (fun i => { i with FieldList := fl }) w.Interfaces }

/-- A write through the pointer `Types.Struct` returned: the slice of the last entry. -/
def Types.storeStruct (w : Types) (fl : FieldList) : Types :=
  { w with Structs := setLast (fun s => { s with FieldList := fl }) w.Structs }

/-- The method `FileBuilder.inspect` on the builder's `File`: the file after the call,
and the boolean returned or the failure it panicked with. It reads the name and the type of
a `TypeSpec` and changes nothing on another node. -/
def inspect (f : File) : Node → File × Except Failure Bool
  | .TypeSpec name _ (.StructType fields) =>
    let w := f.toTypes.Struct name
    match addAll (some []) fields with
    | (fl, some e) => ({ f with toTypes := w.storeStruct fl }, .error e)
    | (fl, none) => ({ f with toTypes := w.storeStruct fl }, .ok true)
  | .TypeSpec name _ (.InterfaceType methods) =>
    let w := f.toTypes.Interface name
    match addAll (some []) methods with
    | (fl, some e) => ({ f with toTypes := w.storeInterface fl }, .error e)
    | (fl, none) => ({ f with toTypes := w.storeInterface fl }, .ok true)
  | _ => (f, .ok true)

/-- One step of the walk followed by the rest of it, unless the step panicked. -/
def andThen (r : File × Option Failure) (k : File → File × Option Failure) :
    File × Option Failure :=
  match r with
  | (f1, some e) => (f1, some e)
  | (f1, none) => k f1

mutual
/-- The function `ast.Inspect(node, f.inspect)`: `inspect` on the node, then, when it
returned true, the walk of the nodes below it in the order of `ast.Walk` (the closing call
`inspect(nil)` matches no case). Below a `TypeSpec` lie its name, its type parameters and
its type. On an expression, a field list, a field or an identifier `inspect` matches no
case and returns true, so the walk goes on below each of them. A panic ends the walk. -/
def Inspect (f : File) : Node → File × Option Failure
  | .TypeSpec name tparams typ =>
    match inspect f (.TypeSpec name tparams typ) with
    | (f1, .error e) => (f1, some e)
    | (f1, .ok false) => (f1, none)
    | (f1, .ok true) =>
      andThen (InspectFieldList f1 tparams) fun f2 => InspectExpr f2 typ
  | .Other kind children =>
    match inspect f (.Other kind children) with
    | (f1, .error e) => (f1, some e)
    | (f1, .ok false) => (f1, none)
    | (f1, .ok true) => InspectList f1 children
/-- The walk of a list of sibling nodes, in order. -/
def InspectList (f : File) : List Node → File × Option Failure
  | [] => (f, none)
  | node :: rest => andThen (Inspect f node) fun f1 => InspectList f1 rest
/-- The walk below an expression, its parts in the order of `ast.Walk`. -/
def InspectExpr (f : File) : Expr → File × Option Failure
  | .Ident _ => (f, none)
  | .FuncType params results =>
    andThen (InspectFieldList f params) fun f1 => InspectFieldList f1 results
  | .ChanType _ value => InspectExpr f value
  | .StructType fields => InspectFieldList f fields
  | .InterfaceType methods => InspectFieldList f methods
  | .StarExpr x => InspectExpr f x
  | .ArrayType len elt => andThen (InspectOptExpr f len) fun f1 => InspectExpr f1 elt
  | .MapType key value => andThen (InspectExpr f key) fun f1 => InspectExpr f1 value
  | .SelectorExpr x _ => InspectExpr f x
  | .Ellipsis elt => InspectOptExpr f elt
  | .ParenExpr x => InspectExpr f x
  | .IndexExpr x index => andThen (InspectExpr f x) fun f1 => InspectExpr f1 index
  | .BasicLit _ => (f, none)
  | .BadExpr => (f, none)
  | .Other _ children => InspectList f children
/-- The walk below an expression that may be absent. -/
def InspectOptExpr (f : File) : Option Expr → File × Option Failure
  | none => (f, none)
  | some e => InspectExpr f e
/-- The walk below a `*ast.FieldList`, nothing for the nil pointer. -/
def InspectFieldList (f : File) : Option (List AstField) → File × Option Failure
  | none => (f, none)
  | some list => InspectFields f list
/-- The walk below the entries of a field list, in order; below an entry lie its names
and its type. -/
def InspectFields (f : File) : List AstField → File × Option Failure
  | [] => (f, none)
  | .mk _ typ :: rest => andThen (InspectExpr f typ) fun f1 => InspectFields f1 rest
end

/-- The function `NewFileBuilder`, given the tree `parser.ParseFile` returned for
`fileName`. -/
def NewFileBuilder (fileName : String) (parsedFile : Node) : FileBuilder :=
  { parsed := parsedFile, File := { Interfaces := [], Structs := [], Name := fileName } }

/-- The method `FileBuilder.Build`: the builder after the call, whose `File` is the one the
returned pointer `&f.File` refers to, and the error (`none` is nil). -/
def FileBuilder.Build (b : FileBuilder) : FileBuilder × Option Failure :=
  match Inspect b.File b.parsed with
  | (file, err) => ({ b with File := file }, err)

/-! ## Notions used to state the properties -/

/-- The value `newField(fieldName(field.Names...), field.Type)` that the loop of `addAll`
computes for one entry. -/
def classify : AstField → Except Failure Field
  | .mk names typ =>
    match fieldName names with
    | .error e => .error e
    | .ok name => newField name typ

/-- The field an entry yields: the classification when it is not nil. -/
def yieldedField (fld : AstField) : Option Field :=
  match classify fld with
  | .error _ => none
  | .ok parsed => if parsed.isNil then none else some parsed

/-- The entries of a `*ast.FieldList`, none for the nil pointer. -/
def entries : Option (List AstField) → List AstField
  | none => []
  | some list => list

mutual
/-- Whether the classifier, started on a field of this type, reaches a list entry that
carries two or more names: the parameter and result lists of a function type are reached,
and so is the element type of a channel. -/
def Expr.reachesGroup : Expr → Bool
  | .FuncType params results => fieldListReachesGroup params || fieldListReachesGroup results
  | .ChanType _ value => value.reachesGroup
  | _ => false
/-- The same for a `*ast.FieldList` handed to `addAll`. -/
def fieldListReachesGroup : Option (List AstField) → Bool
  | none => false
  | some list => entriesReachGroup list
/-- The same for the entries of a list. -/
def entriesReachGroup : List AstField → Bool
  | [] => false
  | .mk names typ :: rest =>
    decide (2 ≤ names.length) || typ.reachesGroup || entriesReachGroup rest
end

/-- The failure `fieldName` raises on the identifiers given. -/
def groupFailure (names : List String) : Failure :=
  [.str "more than one identifier", .idents names]

mutual
/-- The names of the first list entry with two or more names that the classifier meets
when started on a field of this type, in the order in which it goes through the entries:
the parameters of a function type before its results, each entry before the next, and the
names of an entry before what lies below its type. -/
def Expr.firstGroup : Expr → Option (List String)
  | .FuncType params results =>
    match fieldListFirstGroup params with
    | some names => some names
    | none => fieldListFirstGroup results
  | .ChanType _ value => value.firstGroup
  | _ => none
/-- The same for a `*ast.FieldList` handed to `addAll`. -/
def fieldListFirstGroup : Option (List AstField) → Option (List String)
  | none => none
  | some list => entriesFirstGroup list
/-- The same for the entries of a list. -/
def entriesFirstGroup : List AstField → Option (List String)
  | [] => none
  | .mk names typ :: rest =>
    if 2 ≤ names.length then some names
    else
      match typ.firstGroup with
      | some found => some found
      | none => entriesFirstGroup rest
end

mutual
/-- The type declarations of a tree, as name and type expression, in the order in which
`ast.Inspect` visits them: a declaration, then the ones below its type parameters, then
the ones below its type. -/
def typeSpecs : Node → List (String × Expr)
  | .TypeSpec name tparams typ => (name, typ) :: (fieldListSpecs tparams ++ exprSpecs typ)
  | .Other _ children => typeSpecsList children
/-- The type declarations below a list of sibling nodes. -/
def typeSpecsList : List Node → List (String × Expr)
  | [] => []
  | node :: rest => typeSpecs node ++ typeSpecsList rest
/-- The type declarations below an expression. -/
def exprSpecs : Expr → List (String × Expr)
  | .Ident _ => []
  | .FuncType params results => fieldListSpecs params ++ fieldListSpecs results
  | .ChanType _ value => exprSpecs value
  | .StructType fields => fieldListSpecs fields
  | .InterfaceType methods => fieldListSpecs methods
  | .StarExpr x => exprSpecs x
  | .ArrayType len elt => optExprSpecs len ++ exprSpecs elt
  | .MapType key value => exprSpecs key ++ exprSpecs value
  | .SelectorExpr x _ => exprSpecs x
  | .Ellipsis elt => optExprSpecs elt
  | .ParenExpr x => exprSpecs x
  | .IndexExpr x index => exprSpecs x ++ exprSpecs index
  | .BasicLit _ => []
  | .BadExpr => []
  | .Other _ children => typeSpecsList children
/-- The type declarations below an expression that may be absent. -/
def optExprSpecs : Option Expr → List (String × Expr)
  | none => []
  | some e => exprSpecs e
/-- The type declarations below a `*ast.FieldList`. -/
def fieldListSpecs : Option (List AstField) → List (String × Expr)
  | none => []
  | some list => fieldsSpecs list
/-- The type declarations below the entries of a field list. -/
def fieldsSpecs : List AstField → List (String × Expr)
  | [] => []
  | .mk _ typ :: rest => exprSpecs typ ++ fieldsSpecs rest
end

/-- Whether a type declaration is a struct or interface declaration whose member list
reaches an entry with two or more names. -/
def specReachesGroup (d : String × Expr) : Bool :=
  match d.2 with
  | .StructType fields => fieldListReachesGroup fields
  | .InterfaceType methods => fieldListReachesGroup methods
  | _ => false

/-- Whether some struct or interface declaration of the tree reaches an entry with two or
more names. -/
def Node.reachesGroup (node : Node) : Bool :=
  (typeSpecs node).any specReachesGroup

/-- The entries the struct declarations of a sequence of type declarations give, each with
the list `addAll` leaves in it. -/
def structEntries : List (String × Expr) → List Struct
  | [] => []
  | (name, .StructType fields) :: rest => ⟨(addAll (some []) fields).1, name⟩ :: structEntries rest
  | _ :: rest => structEntries rest

/-- The entries the interface declarations of a sequence of type declarations give, each
with the list `addAll` leaves in it. -/
def interfaceEntries : List (String × Expr) → List Interface
  | [] => []
  | (name, .InterfaceType methods) :: rest =>
    ⟨(addAll (some []) methods).1, name⟩ :: interfaceEntries rest
  | _ :: rest => interfaceEntries rest

/-- The type declarations up to and including the first one whose member list reaches an
entry with two or more names; all of them when there is none. -/
def reachedSpecs : List (String × Expr) → List (String × Expr)
  | [] => []
  | d :: rest => if specReachesGroup d then [d] else d :: reachedSpecs rest

/-- The visit of a sequence of type declarations, one call of `inspect` each, up to the
first panic. -/
def walkSpecs (f : File) : List (String × Expr) → File × Option Failure
  | [] => (f, none)
  | (name, typ) :: rest =>
    match inspect f (.TypeSpec name none typ) with
    | (f1, .error e) => (f1, some e)
    | (f1, .ok _) => walkSpecs f1 rest

/-- A failure raised by `fieldName`: its message and the identifiers, two or more. -/
def IsGroupFailure (e : Failure) : Prop :=
  ∃ names : List String, 2 ≤ names.length ∧
    e = [.str "more than one identifier", .idents names]

/-- The name of a `Func`, nothing for another field. -/
def Field.funcName : Field → Option String
  | .Func name _ _ => some name
  | _ => none

/-- A struct declaration whose fields all have an identifier type, given by its name and,
for each field, the optional field name and the type identifier. -/
def simpleStructSpec (d : String × List (Option String × String)) : String × Expr :=
  (d.1, .StructType (some (d.2.map fun p => .mk p.1.toList (.Ident p.2))))

/-- The `Struct` entry expected for such a declaration. -/
def simpleStructEntry (d : String × List (Option String × String)) : Struct :=
  ⟨some (d.2.map fun p => .TypedField (p.1.getD "") p.2), d.1⟩

/-- A method signature `name(params) results` as an entry of an interface method list. -/
def methodEntry (s : String × Option (List AstField) × Option (List AstField)) : AstField :=
  .mk [s.1] (.FuncType s.2.1 s.2.2)

/-! ## Sample files -/

/-- A file holding the declarations given, each in a `type` declaration of its own. -/
def fileOf (specs : List (String × Expr)) : Node :=
  .Other "*ast.File" (specs.map fun d => .Other "*ast.GenDecl" [.TypeSpec d.1 none d.2])

/-- The file `type S struct { A int; F func(x int) bool }` followed by
`type I interface { M(c chan<- string) }`. -/
def sampleFile : Node :=
  fileOf [
    ("S", .StructType (some [
      .mk ["A"] (.Ident "int"),
      .mk ["F"] (.FuncType (some [.mk ["x"] (.Ident "int")])
        (some [.mk [] (.Ident "bool")]))])),
    ("I", .InterfaceType (some [
      .mk ["M"] (.FuncType (some [.mk ["c"] (.ChanType .SEND (.Ident "string"))]) none)]))]

/-- The file `type S struct { P *int }`. -/
def pointerFieldFile : Node :=
  fileOf [("S", .StructType (some [.mk ["P"] (.StarExpr (.Ident "int"))]))]

/-- The file `type S struct { A, B *int }` followed by `type T struct { C int }`. -/
def groupedFieldFile : Node :=
  fileOf [
    ("S", .StructType (some [.mk ["A", "B"] (.StarExpr (.Ident "int"))])),
    ("T", .StructType (some [.mk ["C"] (.Ident "int")]))]

/-- The file `type P struct { X int; Y }` followed by `type Q struct {}`. -/
def simpleStructsFile : Node :=
  fileOf [
    ("P", .StructType (some [.mk ["X"] (.Ident "int"), .mk [] (.Ident "Y")])),
    ("Q", .StructType (some []))]

/-- The file `type I interface { M(x, y int) }`. -/
def groupedMethodFile : Node :=
  fileOf [("I", .InterfaceType (some [
    .mk ["M"] (.FuncType (some [.mk ["x", "y"] (.Ident "int")]) none)]))]

/-- The file `type S struct { A int }` followed by
`type I interface { M(x int); N() bool }`. -/
def twoMethodsFile : Node :=
  fileOf [
    ("S", .StructType (some [.mk ["A"] (.Ident "int")])),
    ("I", .InterfaceType (some [
      .mk ["M"] (.FuncType (some [.mk ["x"] (.Ident "int")]) none),
      .mk ["N"] (.FuncType (some []) (some [.mk [] (.Ident "bool")]))]))]

/-- The file `type S struct { C chan *int }`. -/
def chanPointerFile : Node :=
  fileOf [("S", .StructType (some [.mk ["C"] (.ChanType .BOTH (.StarExpr (.Ident "int")))]))]

/-! ## Notions used for the walk over whole trees -/

/-- Whether a type expression is a struct type or an interface type, the two shapes
`inspect` acts on. -/
def Expr.isStructOrInterface : Expr → Bool
  | .StructType _ => true
  | .InterfaceType _ => true
  | _ => false

/-- The names of the struct declarations of a sequence of type declarations, in order. -/
def structNames : List (String × Expr) → List String
  | [] => []
  | (name, .StructType _) :: rest => name :: structNames rest
  | _ :: rest => structNames rest

/-- The names of the interface declarations of a sequence of type declarations, in
order. -/
def interfaceNames : List (String × Expr) → List String
  | [] => []
  | (name, .InterfaceType _) :: rest => name :: interfaceNames rest
  | _ :: rest => interfaceNames rest

/-- The type declarations that stand directly in a list of nodes. -/
def directSpecs : List Node → List (String × Expr)
  | [] => []
  | .TypeSpec name _ typ :: rest => (name, typ) :: directSpecs rest
  | .Other _ _ :: rest => directSpecs rest

/-- The type declarations of the top-level declarations given: those that stand directly
in a top-level declaration (the specs of a `*ast.GenDecl`), not the ones nested deeper. -/
def declSpecs : List Node → List (String × Expr)
  | [] => []
  | .TypeSpec name _ typ :: rest => (name, typ) :: declSpecs rest
  | .Other _ specs :: rest => directSpecs specs ++ declSpecs rest

/-- The top-level type declarations of a file. -/
def topLevelSpecs : Node → List (String × Expr)
  | .TypeSpec name _ typ => [(name, typ)]
  | .Other _ decls => declSpecs decls

/-- The entries of the struct declarations of a sequence of type declarations when each
holds the fields yielded by all the entries of its member list. -/
def fullStructEntries : List (String × Expr) → List Struct
  | [] => []
  | (name, .StructType fields) :: rest =>
    ⟨some ((entries fields).filterMap yieldedField), name⟩ :: fullStructEntries rest
  | _ :: rest => fullStructEntries rest

/-- The entries of the interface declarations of a sequence of type declarations when each
holds the fields yielded by all the entries of its method list. -/
def fullInterfaceEntries : List (String × Expr) → List Interface
  | [] => []
  | (name, .InterfaceType methods) :: rest =>
    ⟨some ((entries methods).filterMap yieldedField), name⟩ :: fullInterfaceEntries rest
  | _ :: rest => fullInterfaceEntries rest

/-- A struct declaration (`true`) or an interface declaration (`false`) with the member
list given. -/
def memberDecl (isStruct : Bool) (list : List AstField) : Expr :=
  if isStruct then .StructType (some list) else .InterfaceType (some list)

/-! ## The package builder -/

/-- The fields of `build.Package` that `PackageBuilder.Build` reads. -/
structure BuildPackage where
  Dir : String
  GoFiles : List String

/-- The type `PackageBuilder`. -/
structure PackageBuilder where
  pkg : BuildPackage

/-- The type `Package`. -/
structure Package where
  Files : List File

/-- What `PackageBuilder.Build` calls outside the repository: `parser.ParseFile` on a file
name, giving the tree or the text of the parse error; `filepath.Join`; and `fmt.Sprint` on
the arguments of a failure, the text of the error `FileBuilder.Build` returns. -/
structure Outside where
  ParseFile : String → Except String Node
  Join : String → String → String
  Sprint : Failure → String

/-- The function `strings.HasSuffix`. -/
def HasSuffix (s suffix : String) : Bool :=
  suffix.toList.isSuffixOf s.toList

/-- The function `NewFileBuilder` together with its call of `parser.ParseFile`: the parse
error, or the builder on the parsed tree. -/
def NewFileBuilderAt (env : Outside) (fileName : String) : Except String FileBuilder :=
  match env.ParseFile fileName with
  | .error err => .error err
  | .ok parsedFile => .ok (NewFileBuilder fileName parsedFile)

/-- The loop `for _, name := range p.pkg.GoFiles` of `PackageBuilder.Build`, with `files`
the slice built so far. An error is the text `fmt.Errorf("%s: %v", fileName, err)`. -/
def PackageBuilder.buildLoop (env : Outside) (dir : String) (files : List File) :
    List String → Except String Package
  | [] => .ok ⟨files⟩
  | name :: rest =>
    if !HasSuffix name ".go" then PackageBuilder.buildLoop env dir files rest
    else
      match NewFileBuilderAt env (env.Join dir name) with
      | .error err => .error (env.Join dir name ++ ": " ++ err)
      | .ok builder =>
        match builder.Build with
        | (_, some err) => .error (env.Join dir name ++ ": " ++ env.Sprint err)
        | (built, none) => PackageBuilder.buildLoop env dir (files ++ [built.File]) rest

/-- The method `PackageBuilder.Build`: the package, or the error returned with a nil
package. -/
def PackageBuilder.Build (env : Outside) (p : PackageBuilder) : Except String Package :=
  PackageBuilder.buildLoop env p.pkg.Dir [] p.pkg.GoFiles

/-- The paths of the member files `PackageBuilder.Build` handles: the directory joined with
each listed name that ends in `.go`, in listing order. -/
def memberPaths (env : Outside) (p : PackageBuilder) : List String :=
  (p.pkg.GoFiles.filter fun name => HasSuffix name ".go").map (env.Join p.pkg.Dir)

/-- The build outcome of the file at a path: the text of its parse error or of its build
error, or its model. -/
def fileOutcome (env : Outside) (path : String) : Except String File :=
  match env.ParseFile path with
  | .error err => .error err
  | .ok parsedFile =>
    match (NewFileBuilder path parsedFile).Build with
    | (_, some err) => .error (env.Sprint err)
    | (built, none) => .ok built.File

/-- The text of the error of a failed outcome. -/
def outcomeText : Except String File → String
  | .error err => err
  | .ok _ => ""

/-! ## More sample files -/

/-- The file `func f() { type T struct { A, B int } }`: its one top-level declaration is a
function, whose body declares a struct type. -/
def localTypeFile : Node :=
  .Other "*ast.File" [
    .Other "*ast.FuncDecl" [
      .Other "*ast.BlockStmt" [
        .Other "*ast.DeclStmt" [
          .Other "*ast.GenDecl" [
            .TypeSpec "T" none (.StructType (some [.mk ["A", "B"] (.Ident "int")]))]]]]]

/-- The file `const c = 1`, `var v int`, `type A int`, `type F func(x, y int)`,
`func g() {}`: no struct or interface declaration anywhere. -/
def noRecordFile : Node :=
  .Other "*ast.File" [
    .Other "*ast.GenDecl" [.Other "*ast.ValueSpec" []],
    .Other "*ast.GenDecl" [.Other "*ast.ValueSpec" []],
    .Other "*ast.GenDecl" [.TypeSpec "A" none (.Ident "int")],
    .Other "*ast.GenDecl" [
      .TypeSpec "F" none (.FuncType (some [.mk ["x", "y"] (.Ident "int")]) none)],
    .Other "*ast.FuncDecl" [.Other "*ast.BlockStmt" []]]

/-- The file `type S struct { A int; P *int; B, C int; D int }` preceded by
`type I interface { M() }` and followed by `type T struct {}`. -/
def brokenThirdFile : Node :=
  fileOf [
    ("I", .InterfaceType (some [.mk ["M"] (.FuncType (some []) none)])),
    ("S", .StructType (some [
      .mk ["A"] (.Ident "int"),
      .mk ["P"] (.StarExpr (.Ident "int")),
      .mk ["B", "C"] (.Ident "int"),
      .mk ["D"] (.Ident "int")])),
    ("T", .StructType (some []))]

/-- The file `type S struct { A int; X [len(func() { type S struct {} })]int }`,
`func f() { type S struct {}; type I interface {} }`, `type J interface { M() }`: three
struct declarations of the same name, one inside the length of an array type and one in a
function body. -/
def sameNameFile : Node :=
  .Other "*ast.File" [
    .Other "*ast.GenDecl" [
      .TypeSpec "S" none (.StructType (some [
        .mk ["A"] (.Ident "int"),
        .mk ["X"] (.ArrayType
          (some (.Other "*ast.CallExpr" [
            .Other "*ast.Ident" [],
            .Other "*ast.FuncLit" [
              .Other "*ast.FuncType" [],
              .Other "*ast.BlockStmt" [
                .Other "*ast.DeclStmt" [
                  .Other "*ast.GenDecl" [.TypeSpec "S" none (.StructType (some []))]]]]]))
          (.Ident "int"))]))],
    .Other "*ast.FuncDecl" [
      .Other "*ast.BlockStmt" [
        .Other "*ast.DeclStmt" [
          .Other "*ast.GenDecl" [.TypeSpec "S" none (.StructType (some []))]],
        .Other "*ast.DeclStmt" [
          .Other "*ast.GenDecl" [.TypeSpec "I" none (.InterfaceType (some []))]]]],
    .Other "*ast.GenDecl" [
      .TypeSpec "J" none (.InterfaceType (some [.mk ["M"] (.FuncType (some []) none)]))]]

/-- A sample surrounding: `d/a.go` parses to the sample file, `d/b.go` to the file
`type S struct { A, B *int }; type T struct { C int }`, and any other path fails to parse;
paths are joined with a slash and a failure is printed as `fmt.Sprint` prints it. -/
def sampleOutside : Outside where
  ParseFile := fun path =>
    if path = "d/a.go" then .ok sampleFile
    else if path = "d/b.go" then .ok groupedFieldFile
    else .error "expected declaration"
  Join := fun dir name => dir ++ "/" ++ name
  Sprint := Sprint

/-- The file `type I interface { Stringer; M() }`: one embedded interface and one method
signature. -/
def embeddedMethodFile : Node :=
  fileOf [("I", .InterfaceType (some [
    .mk [] (.Ident "Stringer"),
    .mk ["M"] (.FuncType (some []) none)]))]

/-- The file `type S struct { A int; F func(x, y int, z, w int); B, C int }` followed by
`type T struct { C int }`: three groups of names in `S`, the first being `x, y`. -/
def threeGroupsFile : Node :=
  fileOf [
    ("S", .StructType (some [
      .mk ["A"] (.Ident "int"),
      .mk ["F"] (.FuncType
        (some [.mk ["x", "y"] (.Ident "int"), .mk ["z", "w"] (.Ident "int")]) none),
      .mk ["B", "C"] (.Ident "int")])),
    ("T", .StructType (some [.mk ["C"] (.Ident "int")]))]

/-- The body `{ type T struct { A, B int } }` of a function literal, as the expression
`len(func() { ... })` may hold it. -/
def literalWithStruct : Expr :=
  .Other "*ast.CallExpr" [
    .Other "*ast.Ident" [],
    .Other "*ast.FuncLit" [
      .Other "*ast.FuncType" [],
      .Other "*ast.BlockStmt" [
        .Other "*ast.DeclStmt" [
          .Other "*ast.GenDecl" [
            .TypeSpec "T" none (.StructType (some [.mk ["A", "B"] (.Ident "int")]))]]]]]

/-- The file `type S struct { X [len(func() { type T struct { A, B int } })]int }` followed
by `type U struct {}`: a struct declaration inside the length of an array type. -/
def nestedLiteralFile : Node :=
  fileOf [
    ("S", .StructType (some [
      .mk ["X"] (.ArrayType (some literalWithStruct) (.Ident "int"))])),
    ("U", .StructType (some []))]

/-- The fields yielded by the entries of a list before the first one whose classification
fails, in order; by all of them when none fails. -/
def yieldedBeforeFailure (l : List AstField) : List Field :=
  (l.takeWhile fun fld => (classify fld).isOk).filterMap yieldedField

/-- The failure a call panicked with, none when it returned. -/
def failureOf {α : Type} : Except Failure α → Option Failure
  | .error e => some e
  | .ok _ => none

/-! ## The field classifier: auxiliary facts -/

theorem fieldName_nil : fieldName [] = .ok "" := rfl

theorem fieldName_single (n : String) : fieldName [n] = .ok n := rfl

theorem fieldName_group (n m : String) (rest : List String) :
    fieldName (n :: m :: rest)
      = .error [.str "more than one identifier", .idents (n :: m :: rest)] := by
  simp [fieldName, failIf]

theorem fieldName_isOk (ident : List String) :
    (fieldName ident).isOk = decide (ident.length < 2) := by
  match ident with
  | [] => rfl
  | [_] => rfl
  | n :: m :: rest => simp [fieldName_group, Except.isOk, Except.toBool]

theorem fieldName_error (ident : List String) (e : Failure)
    (h : fieldName ident = .error e) : IsGroupFailure e := by
  match ident with
  | [] => simp [fieldName] at h
  | [_] => simp [fieldName, failIf] at h
  | n :: m :: rest =>
    rw [fieldName_group] at h
    injection h with h
    exact ⟨n :: m :: rest, by simp, h.symm⟩

theorem fieldName_ok_of_short (ident : List String) (h : ident.length ≤ 1) :
    fieldName ident = .ok (ident.headD "") := by
  match ident with
  | [] => rfl
  | [_] => rfl
  | _ :: _ :: _ => simp at h

theorem addAllLoop_cons (f : FieldList) (fld : AstField) (rest : List AstField) :
    addAllLoop f (fld :: rest) =
      match classify fld with
      | .error e => (f, some e)
      | .ok parsed =>
        if parsed.isNil then addAllLoop f rest
        else addAllLoop (appendField f parsed) rest := by
  cases fld with
  | mk names typ =>
    rw [addAllLoop, classify]
    cases fieldName names <;> rfl

theorem yieldedBeforeFailure_nil : yieldedBeforeFailure [] = [] := rfl

theorem yieldedBeforeFailure_error (fld : AstField) (rest : List AstField) (e : Failure)
    (h : classify fld = .error e) : yieldedBeforeFailure (fld :: rest) = [] := by
  have hk : (classify fld).isOk = false := by simp [h, Except.isOk, Except.toBool]
  simp [yieldedBeforeFailure, List.takeWhile_cons, hk]

theorem yieldedBeforeFailure_skip (fld : AstField) (rest : List AstField) (parsed : Field)
    (h : classify fld = .ok parsed) (hnil : parsed.isNil = true) :
    yieldedBeforeFailure (fld :: rest) = yieldedBeforeFailure rest := by
  have hk : (classify fld).isOk = true := by simp [h, Except.isOk, Except.toBool]
  have hy : yieldedField fld = none := by simp [yieldedField, h, hnil]
  simp only [yieldedBeforeFailure, List.takeWhile_cons, hk, if_true]
  rw [List.filterMap_cons_none hy]

theorem yieldedBeforeFailure_keep (fld : AstField) (rest : List AstField) (parsed : Field)
    (h : classify fld = .ok parsed) (hnil : parsed.isNil = false) :
    yieldedBeforeFailure (fld :: rest) = parsed :: yieldedBeforeFailure rest := by
  have hk : (classify fld).isOk = true := by simp [h, Except.isOk, Except.toBool]
  have hy : yieldedField fld = some parsed := by simp [yieldedField, h, hnil]
  simp only [yieldedBeforeFailure, List.takeWhile_cons, hk, if_true]
  rw [List.filterMap_cons_some hy]

theorem addAllLoop_failure (f : FieldList) (l : List AstField) :
    (addAllLoop f l).2 = (addAllLoop (some []) l).2 := by
  induction l generalizing f with
  | nil => simp [addAllLoop]
  | cons fld rest ih =>
    rw [addAllLoop_cons f, addAllLoop_cons (some [])]
    cases classify fld with
    | error e => rfl
    | ok parsed =>
      dsimp only
      cases parsed.isNil with
      | true => simpa using ih f
      | false =>
        simp only [Bool.false_eq_true, if_false]
        rw [ih (appendField f parsed), ih (appendField (some []) parsed)]

theorem addAllLoop_elems (f : FieldList) (l : List AstField) :
    elemsOf (addAllLoop f l).1 = elemsOf f ++ yieldedBeforeFailure l := by
  induction l generalizing f with
  | nil => simp [addAllLoop, yieldedBeforeFailure_nil]
  | cons fld rest ih =>
    rw [addAllLoop_cons f]
    cases hc : classify fld with
    | error e => simp [yieldedBeforeFailure_error fld rest e hc]
    | ok parsed =>
      dsimp only
      cases hnil : parsed.isNil with
      | true =>
        simp only [if_true]
        rw [ih f, yieldedBeforeFailure_skip fld rest parsed hc hnil]
      | false =>
        simp only [Bool.false_eq_true, if_false]
        rw [ih (appendField f parsed), yieldedBeforeFailure_keep fld rest parsed hc hnil]
        simp [appendField, elemsOf]

theorem addAllLoop_allocated (xs : List Field) (l : List AstField) :
    ∃ ys, (addAllLoop (some xs) l).1 = some ys := by
  induction l generalizing xs with
  | nil => exact ⟨xs, rfl⟩
  | cons fld rest ih =>
    rw [addAllLoop_cons]
    cases classify fld with
    | error e => exact ⟨xs, rfl⟩
    | ok parsed =>
      dsimp only
      cases parsed.isNil with
      | true => simpa using ih xs
      | false =>
        simp only [Bool.false_eq_true, if_false]
        exact ih (elemsOf (some xs) ++ [parsed])

theorem addAllLoop_acc (xs : List Field) (l : List AstField) :
    addAllLoop (some xs) l
      = (some (xs ++ yieldedBeforeFailure l), (addAllLoop (some []) l).2) := by
  obtain ⟨ys, hys⟩ := addAllLoop_allocated xs l
  have he := addAllLoop_elems (some xs) l
  rw [hys] at he
  have h1 : (addAllLoop (some xs) l).1 = some (xs ++ yieldedBeforeFailure l) := by
    rw [hys]
    simpa [elemsOf] using he
  have h2 := addAllLoop_failure (some xs) l
  exact Prod.ext h1 h2

theorem addAll_acc (xs : List Field) (l : Option (List AstField)) :
    addAll (some xs) l
      = (some (xs ++ yieldedBeforeFailure (entries l)), (addAll (some []) l).2) := by
  cases l with
  | none => simp [addAll, entries, yieldedBeforeFailure_nil]
  | some list => simpa [addAll, entries] using addAllLoop_acc xs list

theorem addAllLoop_fields (l : List AstField) :
    (addAllLoop (some []) l).1 = some (yieldedBeforeFailure l) := by
  rw [addAllLoop_acc]
  rfl

theorem addAll_fields (l : Option (List AstField)) :
    (addAll (some []) l).1 = some (yieldedBeforeFailure (entries l)) := by
  rw [addAll_acc]
  rfl

theorem yieldedField_nonnil (fld : AstField) (x : Field) (h : yieldedField fld = some x) :
    x.isNil = false := by
  unfold yieldedField at h
  cases hc : classify fld with
  | error e => simp [hc] at h
  | ok parsed =>
    simp only [hc] at h
    cases hnil : parsed.isNil with
    | true => simp [hnil] at h
    | false =>
      simp only [hnil, Bool.false_eq_true, if_false, Option.some.injEq] at h
      rw [← h]
      exact hnil

theorem yieldedBeforeFailure_nonnil (l : List AstField) :
    ∀ x ∈ yieldedBeforeFailure l, x.isNil = false := by
  intro x hx
  simp only [yieldedBeforeFailure, List.mem_filterMap] at hx
  obtain ⟨fld, _, hy⟩ := hx
  exact yieldedField_nonnil fld x hy

mutual
theorem newField_isOk (name : String) :
    ∀ e : Expr, (newField name e).isOk = !e.reachesGroup
  | .FuncType params results => by
    have h1 := addAll_isSome (some []) params
    have h2 := addAll_isSome (some []) results
    unfold newField Expr.reachesGroup
    rcases hp : addAll (some []) params with ⟨ps, _ | e⟩
    · rcases hr : addAll (some []) results with ⟨rs, _ | e⟩
      · rw [hp] at h1; rw [hr] at h2; simp at h1 h2
        simp [h1, h2, Except.isOk, Except.toBool]
      · rw [hr] at h2; simp at h2
        simp [← h2, Except.isOk, Except.toBool]
    · rw [hp] at h1; simp at h1
      simp [← h1, Except.isOk, Except.toBool]
  | .ChanType dir value => by
    have h := newField_isOk "" value
    unfold newField Expr.reachesGroup
    cases hv : newField "" value <;> simp [hv, Except.isOk, Except.toBool] at h ⊢ <;> simp [h]
  | .Ident n => by simp [newField, Expr.reachesGroup, Except.isOk, Except.toBool]
  | .StructType _ => by simp [newField, failIf, Expr.reachesGroup, Except.isOk, Except.toBool]
  | .InterfaceType _ => by simp [newField, failIf, Expr.reachesGroup, Except.isOk, Except.toBool]
  | .StarExpr _ => by simp [newField, failIf, Expr.reachesGroup, Except.isOk, Except.toBool]
  | .ArrayType _ _ => by simp [newField, failIf, Expr.reachesGroup, Except.isOk, Except.toBool]
  | .MapType _ _ => by simp [newField, failIf, Expr.reachesGroup, Except.isOk, Except.toBool]
  | .SelectorExpr _ _ => by simp [newField, failIf, Expr.reachesGroup, Except.isOk, Except.toBool]
  | .Ellipsis _ => by simp [newField, failIf, Expr.reachesGroup, Except.isOk, Except.toBool]
  | .ParenExpr _ => by simp [newField, failIf, Expr.reachesGroup, Except.isOk, Except.toBool]
  | .IndexExpr _ _ => by simp [newField, failIf, Expr.reachesGroup, Except.isOk, Except.toBool]
  | .BasicLit _ => by simp [newField, failIf, Expr.reachesGroup, Except.isOk, Except.toBool]
  | .BadExpr => by simp [newField, failIf, Expr.reachesGroup, Except.isOk, Except.toBool]
  | .Other _ _ => by simp [newField, failIf, Expr.reachesGroup, Except.isOk, Except.toBool]
theorem addAll_isSome (f : FieldList) :
    ∀ l : Option (List AstField), (addAll f l).2.isSome = fieldListReachesGroup l
  | none => by simp [addAll, fieldListReachesGroup]
  | some list => by
    have h := addAllLoop_isSome f list
    simpa [addAll, fieldListReachesGroup] using h
theorem addAllLoop_isSome (f : FieldList) :
    ∀ l : List AstField, (addAllLoop f l).2.isSome = entriesReachGroup l
  | [] => by simp [addAllLoop, entriesReachGroup]
  | .mk names typ :: rest => by
    have hn := fieldName_isOk names
    unfold addAllLoop entriesReachGroup
    cases hf : fieldName names with
    | error e =>
      rw [hf] at hn
      simp [Except.isOk, Except.toBool] at hn
      simp [hn]
    | ok nm =>
      rw [hf] at hn
      simp [Except.isOk, Except.toBool] at hn
      have ht := newField_isOk nm typ
      cases hx : newField nm typ with
      | error e =>
        rw [hx] at ht
        simp [Except.isOk, Except.toBool] at ht
        simp [ht, hx]
      | ok parsed =>
        rw [hx] at ht
        simp [Except.isOk, Except.toBool] at ht
        have h1 := addAllLoop_isSome f rest
        have h2 := addAllLoop_isSome (appendField f parsed) rest
        have hlt : ¬ (2 ≤ names.length) := by omega
        by_cases hnil : parsed.isNil <;> simp [hx, hnil, ht, hlt, h1, h2]
end

mutual
theorem newField_error (name : String) :
    ∀ (e : Expr) (x : Failure), newField name e = .error x → IsGroupFailure x
  | .FuncType params results, x, h => by
    unfold newField at h
    rcases hp : addAll (some []) params with ⟨ps, _ | e⟩
    · rcases hr : addAll (some []) results with ⟨rs, _ | e⟩
      · simp [hp, hr] at h
      · simp [hp, hr] at h
        exact addAll_error (some []) results x (by rw [hr, h])
    · simp [hp] at h
      exact addAll_error (some []) params x (by rw [hp, h])
  | .ChanType dir value, x, h => by
    unfold newField at h
    cases hv : newField "" value with
    | error e =>
      simp [hv] at h
      exact newField_error "" value x (by rw [hv, h])
    | ok t => simp [hv] at h
  | .Ident n, x, h => by simp [newField] at h
  | .StructType _, x, h => by simp [newField, failIf] at h
  | .InterfaceType _, x, h => by simp [newField, failIf] at h
  | .StarExpr _, x, h => by simp [newField, failIf] at h
  | .ArrayType _ _, x, h => by simp [newField, failIf] at h
  | .MapType _ _, x, h => by simp [newField, failIf] at h
  | .SelectorExpr _ _, x, h => by simp [newField, failIf] at h
  | .Ellipsis _, x, h => by simp [newField, failIf] at h
  | .ParenExpr _, x, h => by simp [newField, failIf] at h
  | .IndexExpr _ _, x, h => by simp [newField, failIf] at h
  | .BasicLit _, x, h => by simp [newField, failIf] at h
  | .BadExpr, x, h => by simp [newField, failIf] at h
  | .Other _ _, x, h => by simp [newField, failIf] at h
theorem addAll_error (f : FieldList) :
    ∀ (l : Option (List AstField)) (x : Failure), (addAll f l).2 = some x → IsGroupFailure x
  | none, x, h => by simp [addAll] at h
  | some list, x, h => by
    rw [addAll] at h
    exact addAllLoop_error f list x h
theorem addAllLoop_error (f : FieldList) :
    ∀ (l : List AstField) (x : Failure), (addAllLoop f l).2 = some x → IsGroupFailure x
  | [], x, h => by simp [addAllLoop] at h
  | .mk names typ :: rest, x, h => by
    unfold addAllLoop at h
    cases hf : fieldName names with
    | error e =>
      simp [hf] at h
      exact fieldName_error names x (by rw [hf, h])
    | ok nm =>
      cases hx : newField nm typ with
      | error e =>
        simp [hf, hx] at h
        exact newField_error nm typ x (by rw [hx, h])
      | ok parsed =>
        by_cases hnil : parsed.isNil = true
        · simp [hf, hx, hnil] at h
          exact addAllLoop_error f rest x h
        · simp [hf, hx, hnil] at h
          exact addAllLoop_error (appendField f parsed) rest x h
end

theorem fieldName_of_group (names : List String) (h : 2 ≤ names.length) :
    fieldName names = .error (groupFailure names) := by
  match names with
  | [] => simp at h
  | [_] => simp at h
  | n :: m :: rest => exact fieldName_group n m rest

theorem fieldName_of_short (names : List String) (h : ¬ 2 ≤ names.length) :
    ∃ n, fieldName names = .ok n := by
  match names with
  | [] => exact ⟨"", rfl⟩
  | [n] => exact ⟨n, rfl⟩
  | _ :: _ :: _ => simp at h

mutual
theorem newField_failure (name : String) :
    ∀ e : Expr, failureOf (newField name e) = e.firstGroup.map groupFailure
  | .FuncType params results => by
    have h1 := addAll_firstFailure (some []) params
    have h2 := addAll_firstFailure (some []) results
    unfold newField Expr.firstGroup
    rcases hp : addAll (some []) params with ⟨ps, _ | e⟩
    · rw [hp] at h1
      simp only at h1
      cases hg : fieldListFirstGroup params with
      | some names => rw [hg] at h1; simp at h1
      | none =>
        rcases hr : addAll (some []) results with ⟨rs, _ | e⟩
        · rw [hr] at h2
          simp only at h2
          simp [failureOf, ← h2]
        · rw [hr] at h2
          simp only at h2
          simp [failureOf, ← h2]
    · rw [hp] at h1
      simp only at h1
      cases hg : fieldListFirstGroup params with
      | some names =>
        rw [hg] at h1
        simp [failureOf, h1]
      | none => rw [hg] at h1; simp at h1
  | .ChanType dir value => by
    have h := newField_failure "" value
    unfold newField Expr.firstGroup
    cases hv : newField "" value with
    | error e => rw [hv] at h; simpa [failureOf] using h
    | ok t => rw [hv] at h; simpa [failureOf] using h
  | .Ident n => by simp [newField, Expr.firstGroup, failureOf]
  | .StructType _ => by simp [newField, failIf, Expr.firstGroup, failureOf]
  | .InterfaceType _ => by simp [newField, failIf, Expr.firstGroup, failureOf]
  | .StarExpr _ => by simp [newField, failIf, Expr.firstGroup, failureOf]
  | .ArrayType _ _ => by simp [newField, failIf, Expr.firstGroup, failureOf]
  | .MapType _ _ => by simp [newField, failIf, Expr.firstGroup, failureOf]
  | .SelectorExpr _ _ => by simp [newField, failIf, Expr.firstGroup, failureOf]
  | .Ellipsis _ => by simp [newField, failIf, Expr.firstGroup, failureOf]
  | .ParenExpr _ => by simp [newField, failIf, Expr.firstGroup, failureOf]
  | .IndexExpr _ _ => by simp [newField, failIf, Expr.firstGroup, failureOf]
  | .BasicLit _ => by simp [newField, failIf, Expr.firstGroup, failureOf]
  | .BadExpr => by simp [newField, failIf, Expr.firstGroup, failureOf]
  | .Other _ _ => by simp [newField, failIf, Expr.firstGroup, failureOf]
theorem addAll_firstFailure (f : FieldList) :
    ∀ l : Option (List AstField), (addAll f l).2 = (fieldListFirstGroup l).map groupFailure
  | none => by simp [addAll, fieldListFirstGroup]
  | some list => by
    have h := addAllLoop_firstFailure f list
    simpa [addAll, fieldListFirstGroup] using h
theorem addAllLoop_firstFailure (f : FieldList) :
    ∀ l : List AstField, (addAllLoop f l).2 = (entriesFirstGroup l).map groupFailure
  | [] => by simp [addAllLoop, entriesFirstGroup]
  | .mk names typ :: rest => by
    unfold addAllLoop entriesFirstGroup
    by_cases hlen : 2 ≤ names.length
    · rw [fieldName_of_group names hlen]
      simp [hlen]
    · obtain ⟨nm, hnm⟩ := fieldName_of_short names hlen
      have ht := newField_failure nm typ
      rw [hnm]
      simp only [hlen, if_false]
      cases hx : newField nm typ with
      | error e =>
        rw [hx] at ht
        simp only [failureOf] at ht
        cases hg : typ.firstGroup with
        | some found => rw [hg] at ht; simpa using ht
        | none => rw [hg] at ht; simp at ht
      | ok parsed =>
        rw [hx] at ht
        simp only [failureOf] at ht
        cases hg : typ.firstGroup with
        | some found => rw [hg] at ht; simp at ht
        | none =>
          have h1 := addAllLoop_firstFailure f rest
          have h2 := addAllLoop_firstFailure (appendField f parsed) rest
          by_cases hnil : parsed.isNil <;> simp [hnil, h1, h2]
end

theorem entriesReachGroup_eq (l : List AstField) :
    entriesReachGroup l = (entriesFirstGroup l).isSome := by
  have h1 := addAllLoop_isSome (some []) l
  have h2 := addAllLoop_firstFailure (some []) l
  rw [← h1, h2]
  cases entriesFirstGroup l <;> rfl

theorem classify_failure (fld : AstField) :
    failureOf (classify fld) = (entriesFirstGroup [fld]).map groupFailure := by
  have h := addAllLoop_firstFailure (some []) [fld]
  rw [addAllLoop_cons] at h
  rw [← h]
  cases classify fld with
  | error e => rfl
  | ok parsed =>
    dsimp only
    cases parsed.isNil <;> simp [failureOf, addAllLoop]

/-! ## The walker: auxiliary facts -/

theorem setLast_append_singleton {α : Type} (g : α → α) (l : List α) (a : α) :
    setLast g (l ++ [a]) = l ++ [g a] := by
  induction l with
  | nil => rfl
  | cons b rest ih =>
    cases rest with
    | nil => rfl
    | cons c rest2 =>
      have h : (b :: c :: rest2) ++ [a] = b :: c :: (rest2 ++ [a]) := rfl
      rw [h, setLast]
      simpa using ih

theorem inspect_struct (f : File) (name : String) (tparams : Option (List AstField))
    (fields : Option (List AstField)) :
    inspect f (.TypeSpec name tparams (.StructType fields)) =
      ({ f with Structs := f.Structs ++ [⟨(addAll (some []) fields).1, name⟩] },
        match (addAll (some []) fields).2 with
        | some e => .error e
        | none => .ok true) := by
  unfold inspect
  rcases h : addAll (some []) fields with ⟨fl, _ | e⟩ <;>
    simp [h, Types.Struct, Types.storeStruct, setLast_append_singleton]

theorem inspect_interface (f : File) (name : String) (tparams : Option (List AstField))
    (methods : Option (List AstField)) :
    inspect f (.TypeSpec name tparams (.InterfaceType methods)) =
      ({ f with Interfaces := f.Interfaces ++ [⟨(addAll (some []) methods).1, name⟩] },
        match (addAll (some []) methods).2 with
        | some e => .error e
        | none => .ok true) := by
  unfold inspect
  rcases h : addAll (some []) methods with ⟨fl, _ | e⟩ <;>
    simp [h, Types.Interface, Types.storeInterface, setLast_append_singleton]

theorem inspect_other_kind (f : File) (kind : String) (children : List Node) :
    inspect f (.Other kind children) = (f, .ok true) := rfl

theorem inspect_tparams (f : File) (name : String) (tparams : Option (List AstField))
    (typ : Expr) :
    inspect f (.TypeSpec name tparams typ) = inspect f (.TypeSpec name none typ) := by
  cases typ <;> rfl

theorem inspect_returns_true (f : File) (node : Node) (f1 : File) (ok : Bool)
    (h : inspect f node = (f1, .ok ok)) : ok = true := by
  cases node with
  | Other kind children =>
    simp only [inspect_other_kind, Prod.mk.injEq, Except.ok.injEq] at h
    exact h.2.symm
  | TypeSpec name tparams typ =>
    cases typ with
    | StructType fields =>
      rw [inspect_struct] at h
      cases hr : (addAll (some []) fields).2 with
      | none =>
        simp only [hr, Prod.mk.injEq, Except.ok.injEq] at h
        exact h.2.symm
      | some e => simp [hr] at h
    | InterfaceType methods =>
      rw [inspect_interface] at h
      cases hr : (addAll (some []) methods).2 with
      | none =>
        simp only [hr, Prod.mk.injEq, Except.ok.injEq] at h
        exact h.2.symm
      | some e => simp [hr] at h
    | _ =>
      simp only [inspect, Prod.mk.injEq, Except.ok.injEq] at h
      exact h.2.symm

theorem inspect_error_iff (f : File) (d : String × Expr) :
    (∃ e, (inspect f (.TypeSpec d.1 none d.2)).2 = .error e) ↔ specReachesGroup d = true := by
  obtain ⟨name, typ⟩ := d
  cases typ with
  | StructType fields =>
    have h := addAll_isSome (some []) fields
    rw [inspect_struct]
    cases hr : (addAll (some []) fields).2 <;> simp [hr, specReachesGroup] at h ⊢ <;> simp [h]
  | InterfaceType methods =>
    have h := addAll_isSome (some []) methods
    rw [inspect_interface]
    cases hr : (addAll (some []) methods).2 <;> simp [hr, specReachesGroup] at h ⊢ <;> simp [h]
  | _ => simp [inspect, specReachesGroup]

theorem inspect_error_state (f g : File) (name : String) (typ : Expr) (e : Failure)
    (h : (inspect f (.TypeSpec name none typ)).2 = .error e) :
    (inspect g (.TypeSpec name none typ)).2 = .error e := by
  cases typ with
  | StructType fields =>
    rw [inspect_struct] at h ⊢
    exact h
  | InterfaceType methods =>
    rw [inspect_interface] at h ⊢
    exact h
  | _ => simp [inspect] at h

theorem inspect_error_isGroup (f : File) (node : Node) (e : Failure)
    (h : (inspect f node).2 = .error e) : IsGroupFailure e := by
  cases node with
  | Other kind children => simp [inspect] at h
  | TypeSpec name tparams typ =>
    cases typ with
    | StructType fields =>
      rw [inspect_struct] at h
      cases hr : (addAll (some []) fields).2 with
      | none => simp [hr] at h
      | some x =>
        simp [hr] at h
        exact addAll_error (some []) fields e (by rw [hr, h])
    | InterfaceType methods =>
      rw [inspect_interface] at h
      cases hr : (addAll (some []) methods).2 with
      | none => simp [hr] at h
      | some x =>
        simp [hr] at h
        exact addAll_error (some []) methods e (by rw [hr, h])
    | _ => simp [inspect] at h

theorem walkSpecs_append (f : File) (a b : List (String × Expr)) :
    walkSpecs f (a ++ b) =
      match walkSpecs f a with
      | (f1, some e) => (f1, some e)
      | (f1, none) => walkSpecs f1 b := by
  induction a generalizing f with
  | nil => simp [walkSpecs]
  | cons d rest ih =>
    obtain ⟨name, typ⟩ := d
    simp only [List.cons_append, walkSpecs]
    rcases h : inspect f (.TypeSpec name none typ) with ⟨f1, e | ok⟩
    · simp
    · simpa using ih f1

theorem walkSpecs_append_andThen (f : File) (a b : List (String × Expr)) :
    walkSpecs f (a ++ b) = andThen (walkSpecs f a) fun f1 => walkSpecs f1 b := by
  rw [walkSpecs_append]
  rfl

theorem walkSpecs_nil (f : File) : walkSpecs f [] = (f, none) := rfl

mutual
theorem Inspect_eq_walkSpecs (f : File) :
    ∀ node : Node, Inspect f node = walkSpecs f (typeSpecs node)
  | .TypeSpec name tparams typ => by
    have hk : (fun f2 => InspectExpr f2 typ) = fun f2 => walkSpecs f2 (exprSpecs typ) :=
      funext fun f2 => InspectExpr_eq_walkSpecs f2 typ
    rw [Inspect, typeSpecs, walkSpecs, inspect_tparams]
    rcases h : inspect f (.TypeSpec name none typ) with ⟨f1, e | ok⟩
    · rfl
    · have hok := inspect_returns_true f _ f1 ok h
      subst hok
      simp only []
      rw [InspectFieldList_eq_walkSpecs f1 tparams, hk, walkSpecs_append_andThen]
  | .Other kind children => by
    rw [Inspect, typeSpecs, inspect_other_kind]
    exact InspectList_eq_walkSpecs f children
theorem InspectList_eq_walkSpecs (f : File) :
    ∀ nodes : List Node, InspectList f nodes = walkSpecs f (typeSpecsList nodes)
  | [] => by simp [InspectList, typeSpecsList, walkSpecs]
  | node :: rest => by
    have hk : (fun f1 => InspectList f1 rest) = fun f1 => walkSpecs f1 (typeSpecsList rest) :=
      funext fun f1 => InspectList_eq_walkSpecs f1 rest
    rw [InspectList, typeSpecsList, walkSpecs_append_andThen, Inspect_eq_walkSpecs f node, hk]
theorem InspectExpr_eq_walkSpecs (f : File) :
    ∀ e : Expr, InspectExpr f e = walkSpecs f (exprSpecs e)
  | .Ident _ => by rw [InspectExpr, exprSpecs, walkSpecs_nil]
  | .FuncType params results => by
    have hk : (fun f1 => InspectFieldList f1 results)
        = fun f1 => walkSpecs f1 (fieldListSpecs results) :=
      funext fun f1 => InspectFieldList_eq_walkSpecs f1 results
    rw [InspectExpr, exprSpecs, walkSpecs_append_andThen,
      InspectFieldList_eq_walkSpecs f params, hk]
  | .ChanType _ value => by
    rw [InspectExpr, exprSpecs]
    exact InspectExpr_eq_walkSpecs f value
  | .StructType fields => by
    rw [InspectExpr, exprSpecs]
    exact InspectFieldList_eq_walkSpecs f fields
  | .InterfaceType methods => by
    rw [InspectExpr, exprSpecs]
    exact InspectFieldList_eq_walkSpecs f methods
  | .StarExpr x => by
    rw [InspectExpr, exprSpecs]
    exact InspectExpr_eq_walkSpecs f x
  | .ArrayType len elt => by
    have hk : (fun f1 => InspectExpr f1 elt) = fun f1 => walkSpecs f1 (exprSpecs elt) :=
      funext fun f1 => InspectExpr_eq_walkSpecs f1 elt
    rw [InspectExpr, exprSpecs, walkSpecs_append_andThen,
      InspectOptExpr_eq_walkSpecs f len, hk]
  | .MapType key value => by
    have hk : (fun f1 => InspectExpr f1 value) = fun f1 => walkSpecs f1 (exprSpecs value) :=
      funext fun f1 => InspectExpr_eq_walkSpecs f1 value
    rw [InspectExpr, exprSpecs, walkSpecs_append_andThen,
      InspectExpr_eq_walkSpecs f key, hk]
  | .SelectorExpr x _ => by
    rw [InspectExpr, exprSpecs]
    exact InspectExpr_eq_walkSpecs f x
  | .Ellipsis elt => by
    rw [InspectExpr, exprSpecs]
    exact InspectOptExpr_eq_walkSpecs f elt
  | .ParenExpr x => by
    rw [InspectExpr, exprSpecs]
    exact InspectExpr_eq_walkSpecs f x
  | .IndexExpr x index => by
    have hk : (fun f1 => InspectExpr f1 index) = fun f1 => walkSpecs f1 (exprSpecs index) :=
      funext fun f1 => InspectExpr_eq_walkSpecs f1 index
    rw [InspectExpr, exprSpecs, walkSpecs_append_andThen,
      InspectExpr_eq_walkSpecs f x, hk]
  | .BasicLit _ => by rw [InspectExpr, exprSpecs, walkSpecs_nil]
  | .BadExpr => by rw [InspectExpr, exprSpecs, walkSpecs_nil]
  | .Other _ children => by
    rw [InspectExpr, exprSpecs]
    exact InspectList_eq_walkSpecs f children
theorem InspectOptExpr_eq_walkSpecs (f : File) :
    ∀ e : Option Expr, InspectOptExpr f e = walkSpecs f (optExprSpecs e)
  | none => by rw [InspectOptExpr, optExprSpecs, walkSpecs_nil]
  | some e => by
    rw [InspectOptExpr, optExprSpecs]
    exact InspectExpr_eq_walkSpecs f e
theorem InspectFieldList_eq_walkSpecs (f : File) :
    ∀ l : Option (List AstField), InspectFieldList f l = walkSpecs f (fieldListSpecs l)
  | none => by rw [InspectFieldList, fieldListSpecs, walkSpecs_nil]
  | some list => by
    rw [InspectFieldList, fieldListSpecs]
    exact InspectFields_eq_walkSpecs f list
theorem InspectFields_eq_walkSpecs (f : File) :
    ∀ l : List AstField, InspectFields f l = walkSpecs f (fieldsSpecs l)
  | [] => by rw [InspectFields, fieldsSpecs, walkSpecs_nil]
  | .mk _ typ :: rest => by
    have hk : (fun f1 => InspectFields f1 rest) = fun f1 => walkSpecs f1 (fieldsSpecs rest) :=
      funext fun f1 => InspectFields_eq_walkSpecs f1 rest
    rw [InspectFields, fieldsSpecs, walkSpecs_append_andThen,
      InspectExpr_eq_walkSpecs f typ, hk]
end

theorem Build_eq_walkSpecs (b : FileBuilder) :
    b.Build = ({ b with File := (walkSpecs b.File (typeSpecs b.parsed)).1 },
      (walkSpecs b.File (typeSpecs b.parsed)).2) := by
  simp [FileBuilder.Build, Inspect_eq_walkSpecs]

theorem walkSpecs_isSome (f : File) (specs : List (String × Expr)) :
    (walkSpecs f specs).2.isSome = specs.any specReachesGroup := by
  induction specs generalizing f with
  | nil => simp [walkSpecs]
  | cons d rest ih =>
    obtain ⟨name, typ⟩ := d
    have hd := inspect_error_iff f (name, typ)
    simp only [walkSpecs, List.any_cons]
    rcases h : inspect f (.TypeSpec name none typ) with ⟨f1, e | ok⟩
    · have : specReachesGroup (name, typ) = true := hd.mp ⟨e, by simp [h]⟩
      simp [this]
    · have : specReachesGroup (name, typ) = false := by
        cases hs : specReachesGroup (name, typ) with
        | false => rfl
        | true =>
          obtain ⟨e, he⟩ := hd.mpr hs
          simp [h] at he
      simpa [this] using ih f1

theorem walkSpecs_error_isGroup (f : File) (specs : List (String × Expr)) (e : Failure)
    (h : (walkSpecs f specs).2 = some e) : IsGroupFailure e := by
  induction specs generalizing f with
  | nil => simp [walkSpecs] at h
  | cons d rest ih =>
    obtain ⟨name, typ⟩ := d
    simp only [walkSpecs] at h
    rcases hi : inspect f (.TypeSpec name none typ) with ⟨f1, x | ok⟩
    · simp [hi] at h
      exact inspect_error_isGroup f _ e (by rw [hi, h])
    · simp [hi] at h
      exact ih f1 h

theorem Build_nestedLiteralFile :
    (NewFileBuilder "n.go" nestedLiteralFile).Build.2
      = some [.str "more than one identifier", .idents ["A", "B"]] ∧
    (NewFileBuilder "n.go" nestedLiteralFile).Build.1.File.Structs
      = [⟨some [], "S"⟩, ⟨some [], "T"⟩] :=
  ⟨rfl, rfl⟩

theorem inspect_file (f : File) (d : String × Expr) :
    (inspect f (.TypeSpec d.1 none d.2)).1 =
      { f with
        Structs := f.Structs ++ structEntries [d]
        Interfaces := f.Interfaces ++ interfaceEntries [d] } := by
  obtain ⟨name, typ⟩ := d
  cases typ with
  | StructType fields => simp [inspect_struct, structEntries, interfaceEntries]
  | InterfaceType methods => simp [inspect_interface, structEntries, interfaceEntries]
  | _ => simp [inspect, structEntries, interfaceEntries]

theorem structEntries_cons (d : String × Expr) (rest : List (String × Expr)) :
    structEntries (d :: rest) = structEntries [d] ++ structEntries rest := by
  obtain ⟨name, typ⟩ := d
  cases typ <;> simp [structEntries]

theorem interfaceEntries_cons (d : String × Expr) (rest : List (String × Expr)) :
    interfaceEntries (d :: rest) = interfaceEntries [d] ++ interfaceEntries rest := by
  obtain ⟨name, typ⟩ := d
  cases typ <;> simp [interfaceEntries]

theorem structEntries_append (a b : List (String × Expr)) :
    structEntries (a ++ b) = structEntries a ++ structEntries b := by
  induction a with
  | nil => simp [structEntries]
  | cons d rest ih =>
    rw [List.cons_append, structEntries_cons, ih, structEntries_cons d rest, List.append_assoc]

theorem interfaceEntries_append (a b : List (String × Expr)) :
    interfaceEntries (a ++ b) = interfaceEntries a ++ interfaceEntries b := by
  induction a with
  | nil => simp [interfaceEntries]
  | cons d rest ih =>
    rw [List.cons_append, interfaceEntries_cons, ih, interfaceEntries_cons d rest,
      List.append_assoc]

theorem walkSpecs_file (f : File) (specs : List (String × Expr)) :
    (walkSpecs f specs).1 =
      { f with
        Structs := f.Structs ++ structEntries (reachedSpecs specs)
        Interfaces := f.Interfaces ++ interfaceEntries (reachedSpecs specs) } := by
  induction specs generalizing f with
  | nil => simp [walkSpecs, reachedSpecs, structEntries, interfaceEntries]
  | cons d rest ih =>
    have hd := inspect_error_iff f d
    have hf := inspect_file f d
    obtain ⟨name, typ⟩ := d
    simp only [walkSpecs, reachedSpecs]
    rcases h : inspect f (.TypeSpec name none typ) with ⟨f1, e | ok⟩
    · have hg : specReachesGroup (name, typ) = true := hd.mp ⟨e, by simp [h]⟩
      simp only [h] at hf
      simp [hg, hf]
    · have hg : specReachesGroup (name, typ) = false := by
        cases hs : specReachesGroup (name, typ) with
        | false => rfl
        | true =>
          obtain ⟨e, he⟩ := hd.mpr hs
          simp [h] at he
      simp only [h] at hf
      simp only [hg, Bool.false_eq_true, if_false]
      rw [ih f1, hf]
      simp [structEntries_cons (name, typ) (reachedSpecs rest),
        interfaceEntries_cons (name, typ) (reachedSpecs rest)]

theorem reachedSpecs_of_none (specs : List (String × Expr))
    (h : specs.any specReachesGroup = false) : reachedSpecs specs = specs := by
  induction specs with
  | nil => rfl
  | cons d rest ih =>
    simp only [List.any_cons, Bool.or_eq_false_iff] at h
    simp [reachedSpecs, h.1, ih h.2]

theorem reachedSpecs_first (pre post : List (String × Expr)) (d : String × Expr)
    (hpre : pre.any specReachesGroup = false) (hd : specReachesGroup d = true) :
    reachedSpecs (pre ++ d :: post) = pre ++ [d] := by
  induction pre with
  | nil => simp [reachedSpecs, hd]
  | cons c rest ih =>
    simp only [List.any_cons, Bool.or_eq_false_iff] at hpre
    simp [reachedSpecs, hpre.1, ih hpre.2]

theorem walkSpecs_first (f : File) (pre post : List (String × Expr)) (d : String × Expr)
    (hpre : pre.any specReachesGroup = false) :
    walkSpecs f (pre ++ d :: post) =
      match inspect (walkSpecs f pre).1 (.TypeSpec d.1 none d.2) with
      | (f1, .error e) => (f1, some e)
      | (f1, .ok _) => walkSpecs f1 post := by
  have h := walkSpecs_isSome f pre
  rw [hpre] at h
  rw [walkSpecs_append]
  rcases hw : walkSpecs f pre with ⟨f1, _ | e⟩
  · simp [walkSpecs]
  · simp [hw] at h

theorem reachedSpecs_append_of_none (pre rest : List (String × Expr))
    (hpre : pre.any specReachesGroup = false) :
    reachedSpecs (pre ++ rest) = pre ++ reachedSpecs rest := by
  induction pre with
  | nil => rfl
  | cons c more ih =>
    simp only [List.any_cons, Bool.or_eq_false_iff] at hpre
    simp [reachedSpecs, hpre.1, ih hpre.2]

theorem Build_file (b : FileBuilder) :
    b.Build.1.File =
      { b.File with
        Structs := b.File.Structs ++ structEntries (reachedSpecs (typeSpecs b.parsed))
        Interfaces := b.File.Interfaces
          ++ interfaceEntries (reachedSpecs (typeSpecs b.parsed)) } := by
  rw [Build_eq_walkSpecs]
  exact walkSpecs_file b.File (typeSpecs b.parsed)

theorem Build_error (b : FileBuilder) :
    b.Build.2 = (walkSpecs b.File (typeSpecs b.parsed)).2 := by
  rw [Build_eq_walkSpecs]

theorem entriesReachGroup_cons (fld : AstField) (rest : List AstField) :
    entriesReachGroup (fld :: rest) = (entriesReachGroup [fld] || entriesReachGroup rest) := by
  cases fld with
  | mk names typ => simp [entriesReachGroup]

theorem classify_isOk (fld : AstField) :
    (classify fld).isOk = !entriesReachGroup [fld] := by
  have h := addAllLoop_isSome (some []) [fld]
  rw [addAllLoop_cons] at h
  rw [← h]
  cases classify fld with
  | error e => rfl
  | ok parsed =>
    dsimp only
    cases parsed.isNil <;> simp [Except.isOk, Except.toBool, addAllLoop]

theorem all_classify_ok (l : List AstField) (h : entriesReachGroup l = false) :
    (l.all fun x => (classify x).isOk) = true := by
  induction l with
  | nil => rfl
  | cons fld rest ih =>
    rw [entriesReachGroup_cons] at h
    simp only [Bool.or_eq_false_iff] at h
    rw [List.all_cons, ih h.2, classify_isOk, h.1]
    rfl

theorem classify_error_of_firstGroup (fld : AstField) (names : List String)
    (h : entriesFirstGroup [fld] = some names) : classify fld = .error (groupFailure names) := by
  have hf := classify_failure fld
  rw [h] at hf
  cases hc : classify fld with
  | error e =>
    rw [hc] at hf
    simp only [failureOf, Option.map_some', Option.some.injEq] at hf
    rw [hf]
  | ok parsed => rw [hc] at hf; simp [failureOf] at hf

theorem yieldedBeforeFailure_of_all_ok (l : List AstField)
    (h : (l.all fun x => (classify x).isOk) = true) :
    yieldedBeforeFailure l = l.filterMap yieldedField := by
  have ht : (l.takeWhile fun fld => (classify fld).isOk) = l := by
    rw [List.takeWhile_eq_self_iff]
    intro x hx
    exact (List.all_eq_true.mp h) x hx
  rw [yieldedBeforeFailure, ht]

theorem yieldedBeforeFailure_fails_at (before after : List AstField) (fld : AstField)
    (e : Failure)
    (hbefore : (before.all fun x => (classify x).isOk) = true)
    (hfld : classify fld = .error e) :
    yieldedBeforeFailure (before ++ fld :: after) = before.filterMap yieldedField := by
  induction before with
  | nil => simp [yieldedBeforeFailure_error fld after e hfld]
  | cons x rest ih =>
    simp only [List.all_cons, Bool.and_eq_true] at hbefore
    rw [List.cons_append]
    cases hc : classify x with
    | error err => simp [hc, Except.isOk, Except.toBool] at hbefore
    | ok parsed =>
      cases hnil : parsed.isNil with
      | true =>
        have hy : yieldedField x = none := by simp [yieldedField, hc, hnil]
        rw [yieldedBeforeFailure_skip x _ parsed hc hnil, ih hbefore.2,
          List.filterMap_cons_none hy]
      | false =>
        have hy : yieldedField x = some parsed := by simp [yieldedField, hc, hnil]
        rw [yieldedBeforeFailure_keep x _ parsed hc hnil, ih hbefore.2,
          List.filterMap_cons_some hy]

theorem addAllLoop_failure_at (before after : List AstField) (fld : AstField) (e : Failure)
    (hbefore : (before.all fun x => (classify x).isOk) = true)
    (hfld : classify fld = .error e) :
    (addAllLoop (some []) (before ++ fld :: after)).2 = some e := by
  induction before with
  | nil =>
    rw [List.nil_append, addAllLoop_cons, hfld]
  | cons x rest ih =>
    simp only [List.all_cons, Bool.and_eq_true] at hbefore
    rw [List.cons_append, addAllLoop_cons]
    cases hc : classify x with
    | error err => simp [hc, Except.isOk, Except.toBool] at hbefore
    | ok parsed =>
      dsimp only
      cases parsed.isNil with
      | true => simpa using ih hbefore.2
      | false =>
        simp only [Bool.false_eq_true, if_false]
        rw [addAllLoop_failure]
        exact ih hbefore.2

theorem addAllLoop_fails_at (before after : List AstField) (fld : AstField) (e : Failure)
    (hbefore : (before.all fun x => (classify x).isOk) = true)
    (hfld : classify fld = .error e) :
    addAllLoop (some []) (before ++ fld :: after)
      = (some (before.filterMap yieldedField), some e) := by
  have h1 := addAllLoop_fields (before ++ fld :: after)
  rw [yieldedBeforeFailure_fails_at before after fld e hbefore hfld] at h1
  exact Prod.ext h1 (addAllLoop_failure_at before after fld e hbefore hfld)

theorem addAllLoop_of_ok (l : List AstField) (h : (addAllLoop (some []) l).2 = none) :
    (addAllLoop (some []) l).1 = some (l.filterMap yieldedField) := by
  have hg : entriesReachGroup l = false := by
    have hs := addAllLoop_isSome (some []) l
    rw [h] at hs
    simpa using hs.symm
  rw [addAllLoop_fields, yieldedBeforeFailure_of_all_ok l (all_classify_ok l hg)]

theorem addAll_of_ok (l : Option (List AstField)) (h : (addAll (some []) l).2 = none) :
    (addAll (some []) l).1 = some ((entries l).filterMap yieldedField) := by
  cases l with
  | none => rfl
  | some list => exact addAllLoop_of_ok list h

theorem addAll_none_of_noGroup (l : Option (List AstField))
    (h : fieldListReachesGroup l = false) : (addAll (some []) l).2 = none := by
  have hs := addAll_isSome (some []) l
  rw [h] at hs
  cases hw : (addAll (some []) l).2 with
  | none => rfl
  | some e => rw [hw] at hs; simp at hs

theorem structEntries_full (specs : List (String × Expr))
    (h : specs.any specReachesGroup = false) :
    structEntries specs = fullStructEntries specs := by
  induction specs with
  | nil => rfl
  | cons d rest ih =>
    simp only [List.any_cons, Bool.or_eq_false_iff] at h
    obtain ⟨name, typ⟩ := d
    cases typ with
    | StructType fields =>
      have hf : fieldListReachesGroup fields = false := h.1
      simp [structEntries, fullStructEntries, ih h.2,
        addAll_of_ok fields (addAll_none_of_noGroup fields hf)]
    | _ => simp [structEntries, fullStructEntries, ih h.2]

theorem interfaceEntries_full (specs : List (String × Expr))
    (h : specs.any specReachesGroup = false) :
    interfaceEntries specs = fullInterfaceEntries specs := by
  induction specs with
  | nil => rfl
  | cons d rest ih =>
    simp only [List.any_cons, Bool.or_eq_false_iff] at h
    obtain ⟨name, typ⟩ := d
    cases typ with
    | InterfaceType methods =>
      have hf : fieldListReachesGroup methods = false := h.1
      simp [interfaceEntries, fullInterfaceEntries, ih h.2,
        addAll_of_ok methods (addAll_none_of_noGroup methods hf)]
    | _ => simp [interfaceEntries, fullInterfaceEntries, ih h.2]

theorem inspect_error_of_addAll (f : File) (name : String) (isStruct : Bool)
    (list : List AstField) (fl : FieldList) (e : Failure)
    (h : addAllLoop (some []) list = (fl, some e)) :
    (inspect f (.TypeSpec name none (memberDecl isStruct list))).2 = .error e := by
  cases isStruct with
  | true =>
    simp only [memberDecl, if_true]
    rw [inspect_struct]
    simp [addAll, h]
  | false =>
    simp only [memberDecl, Bool.false_eq_true, if_false]
    rw [inspect_interface]
    simp [addAll, h]

theorem Build_fails_at (b : FileBuilder)
    (pre post : List (String × Expr)) (name : String) (isStruct : Bool)
    (before after : List AstField) (fld : AstField) (e : Failure)
    (hspecs : typeSpecs b.parsed
      = pre ++ (name, memberDecl isStruct (before ++ fld :: after)) :: post)
    (hpre : pre.any specReachesGroup = false)
    (hbefore : (before.all fun x => (classify x).isOk) = true)
    (hfld : classify fld = .error e) :
    b.Build.2 = some e ∧
    b.Build.1.File.Structs = b.File.Structs ++ fullStructEntries pre ++
      (if isStruct then [⟨some (before.filterMap yieldedField), name⟩] else []) ∧
    b.Build.1.File.Interfaces = b.File.Interfaces ++ fullInterfaceEntries pre ++
      (if isStruct then [] else [⟨some (before.filterMap yieldedField), name⟩]) := by
  have hadd := addAllLoop_fails_at before after fld e hbefore hfld
  have hie := inspect_error_of_addAll (walkSpecs b.File pre).1 name isStruct _ _ e hadd
  have hD : specReachesGroup (name, memberDecl isStruct (before ++ fld :: after)) = true :=
    (inspect_error_iff (walkSpecs b.File pre).1 (name, _)).mp ⟨e, hie⟩
  rw [Build_eq_walkSpecs, hspecs]
  refine ⟨?_, ?_, ?_⟩
  · simp only []
    rw [walkSpecs_first b.File pre post (name, _) hpre]
    rcases hi : inspect (walkSpecs b.File pre).1
        (.TypeSpec name none (memberDecl isStruct (before ++ fld :: after)))
      with ⟨f1, x | ok⟩
    · rw [hi] at hie
      simp only [Except.error.injEq] at hie
      simp [hie]
    · rw [hi] at hie
      simp at hie
  · simp only [walkSpecs_file]
    rw [reachedSpecs_first pre post (name, _) hpre hD, structEntries_append,
      structEntries_full pre hpre]
    cases isStruct with
    | true => simp [memberDecl, structEntries, addAll, hadd]
    | false => simp [memberDecl, structEntries]
  · simp only [walkSpecs_file]
    rw [reachedSpecs_first pre post (name, _) hpre hD, interfaceEntries_append,
      interfaceEntries_full pre hpre]
    cases isStruct with
    | true => simp [memberDecl, interfaceEntries]
    | false => simp [memberDecl, interfaceEntries, addAll, hadd]

/-! ## The properties -/

/-- C1, as the code behaves: on the pointer type `*int`, which is neither a function
signature nor a channel nor an identifier, `newField` does not fail and returns the nil
field; `Build` on `type S struct { P *int }` returns a nil error and the entry `S` with an
empty field list. -/
theorem newField_unsupported_returns_nil :
    newField "P" (.StarExpr (.Ident "int")) = .ok .nil ∧
    ((NewFileBuilder "s.go" pointerFieldFile).Build).2 = none ∧
    ((NewFileBuilder "s.go" pointerFieldFile).Build).1.File.Structs = [⟨some [], "S"⟩] :=
  ⟨rfl, rfl, rfl⟩

/-- C2: when some struct or interface declaration of the tree reaches, in its member list
or in a parameter or result list below it, an entry with two or more names, `Build` returns
an error, and that error is the failure of `fieldName` on two or more identifiers. The
type expression of the entry plays no part. -/
theorem Build_fails_on_grouped_names (b : FileBuilder)
    (h : b.parsed.reachesGroup = true) :
    ∃ e, b.Build.2 = some e ∧ IsGroupFailure e := by
  have hs := walkSpecs_isSome b.File (typeSpecs b.parsed)
  rw [Build_eq_walkSpecs]
  cases hw : (walkSpecs b.File (typeSpecs b.parsed)).2 with
  | none =>
    rw [hw] at hs
    simp only [Node.reachesGroup] at h
    rw [h] at hs
    simp at hs
  | some e => exact ⟨e, rfl, walkSpecs_error_isGroup _ _ e hw⟩

/-- C2 at `type S struct { A, B *int }; type T struct { C int }`. -/
theorem Build_fails_on_grouped_names_witness :
    groupedFieldFile.reachesGroup = true ∧
    ∃ e, (NewFileBuilder "g.go" groupedFieldFile).Build.2 = some e ∧ IsGroupFailure e :=
  ⟨rfl, Build_fails_on_grouped_names (NewFileBuilder "g.go" groupedFieldFile) rfl⟩

/-- C3: let the type declarations of the tree be `pre`, then the struct (or interface)
declaration `name`, then `post` in visit order, where no declaration of `pre` reaches an
entry with two or more names, no entry of `before` in the member list of `name` does, and
`names` are the names of the first such entry that the classifier meets in the next entry
`fld`. Then `Build` returns the failure of `fieldName` on exactly `names`, the first
failure in traversal order, whatever `after` and `post` hold; the entry `name` holds the
fields yielded by `before` only; and the file holds the entries it had, the complete
entries of `pre` and that entry, with nothing for a declaration of `post`. -/
theorem Build_fail_fast (b : FileBuilder) (pre post : List (String × Expr))
    (name : String) (isStruct : Bool)
    (before after : List AstField) (fld : AstField) (names : List String)
    (hspecs : typeSpecs b.parsed
      = pre ++ (name, memberDecl isStruct (before ++ fld :: after)) :: post)
    (hpre : pre.any specReachesGroup = false)
    (hbefore : entriesReachGroup before = false)
    (hfld : entriesFirstGroup [fld] = some names) :
    b.Build.2 = some [.str "more than one identifier", .idents names] ∧
    b.Build.1.File.Structs = b.File.Structs ++ fullStructEntries pre ++
      (if isStruct then [⟨some (before.filterMap yieldedField), name⟩] else []) ∧
    b.Build.1.File.Interfaces = b.File.Interfaces ++ fullInterfaceEntries pre ++
      (if isStruct then [] else [⟨some (before.filterMap yieldedField), name⟩]) :=
  Build_fails_at b pre post name isStruct before after fld (groupFailure names) hspecs hpre
    (all_classify_ok before hbefore) (classify_error_of_firstGroup fld names hfld)

/-- C3 at `type S struct { A int; F func(x, y int, z, w int); B, C int }` followed by
`type T struct { C int }`: of the three groups of names the error names the first, `x, y`;
`S` holds the field of `A` only, and the later declaration `T` has no entry. -/
theorem Build_fail_fast_witness :
    (NewFileBuilder "g.go" threeGroupsFile).Build.2
      = some [.str "more than one identifier", .idents ["x", "y"]] ∧
    (NewFileBuilder "g.go" threeGroupsFile).Build.1.File.Structs
      = [⟨some [.TypedField "A" "int"], "S"⟩] ∧
    (NewFileBuilder "g.go" threeGroupsFile).Build.1.File.Interfaces = [] :=
  Build_fail_fast (NewFileBuilder "g.go" threeGroupsFile) []
    [("T", .StructType (some [.mk ["C"] (.Ident "int")]))] "S" true
    [.mk ["A"] (.Ident "int")] [.mk ["B", "C"] (.Ident "int")]
    (.mk ["F"] (.FuncType
      (some [.mk ["x", "y"] (.Ident "int"), .mk ["z", "w"] (.Ident "int")]) none))
    ["x", "y"] rfl rfl rfl rfl

/-- C4: on the file `type S struct { A int; F func(x int) bool }` followed by
`type I interface { M(c chan<- string) }`, `Build` returns a nil error, the one struct `S`
with the fields `TypedField A int` and `Func F [TypedField x int] [TypedField "" bool]`,
and the one interface `I` with the field `Func M [Chan SEND (TypedField "" string)] []`;
every field list is an allocated slice. -/
theorem Build_sampleFile :
    ((NewFileBuilder "test.go" sampleFile).Build).2 = none ∧
    ((NewFileBuilder "test.go" sampleFile).Build).1.File.Structs =
      [⟨some [.TypedField "A" "int",
         .Func "F" (some [.TypedField "x" "int"]) (some [.TypedField "" "bool"])], "S"⟩] ∧
    ((NewFileBuilder "test.go" sampleFile).Build).1.File.Interfaces =
      [⟨some [.Func "M" (some [.Chan .SEND (.TypedField "" "string")]) (some [])], "I"⟩] :=
  ⟨rfl, rfl, rfl⟩

theorem classify_simple (p : Option String × String) :
    classify (.mk p.1.toList (.Ident p.2)) = .ok (.TypedField (p.1.getD "") p.2) := by
  obtain ⟨n, t⟩ := p
  cases n <;> simp [classify, fieldName, failIf, newField]

theorem yieldedField_simple (p : Option String × String) :
    yieldedField (.mk p.1.toList (.Ident p.2)) = some (.TypedField (p.1.getD "") p.2) := by
  simp [yieldedField, classify_simple, Field.isNil]

theorem entriesReachGroup_simple (fields : List (Option String × String)) :
    entriesReachGroup (fields.map fun p => .mk p.1.toList (.Ident p.2)) = false := by
  induction fields with
  | nil => rfl
  | cons p rest ih =>
    rw [List.map_cons, entriesReachGroup_cons, ih]
    have h := classify_isOk (.mk p.1.toList (.Ident p.2))
    rw [classify_simple] at h
    simpa [Except.isOk, Except.toBool] using h.symm

theorem addAllLoop_simple (fields : List (Option String × String)) :
    addAllLoop (some []) (fields.map fun p => .mk p.1.toList (.Ident p.2))
      = (some (fields.map fun p => .TypedField (p.1.getD "") p.2), none) := by
  have hg := entriesReachGroup_simple fields
  have h2 : (addAllLoop (some []) (fields.map fun p => .mk p.1.toList (.Ident p.2))).2
      = none := by
    have hs := addAllLoop_isSome (some [])
      (fields.map fun p => AstField.mk p.1.toList (.Ident p.2))
    rw [hg] at hs
    cases hw : (addAllLoop (some [])
      (fields.map fun p => AstField.mk p.1.toList (.Ident p.2))).2 with
    | none => rfl
    | some e => rw [hw] at hs; simp at hs
  have h1 := addAllLoop_of_ok _ h2
  rw [List.filterMap_map] at h1
  have hf : (List.filterMap
      (yieldedField ∘ fun p : Option String × String => AstField.mk p.1.toList (.Ident p.2))
      fields) = fields.map fun p => .TypedField (p.1.getD "") p.2 := by
    induction fields with
    | nil => rfl
    | cons p rest ih =>
      have hy : (yieldedField ∘ fun p : Option String × String =>
          AstField.mk p.1.toList (.Ident p.2)) p = some (.TypedField (p.1.getD "") p.2) :=
        yieldedField_simple p
      rw [List.filterMap_cons_some hy, List.map_cons]
      have hg2 := entriesReachGroup_simple rest
      have h22 : (addAllLoop (some [])
          (rest.map fun p => .mk p.1.toList (.Ident p.2))).2 = none := by
        have hs := addAllLoop_isSome (some [])
          (rest.map fun p => AstField.mk p.1.toList (.Ident p.2))
        rw [hg2] at hs
        cases hw : (addAllLoop (some [])
          (rest.map fun p => AstField.mk p.1.toList (.Ident p.2))).2 with
        | none => rfl
        | some e => rw [hw] at hs; simp at hs
      have h12 := addAllLoop_of_ok _ h22
      rw [List.filterMap_map] at h12
      rw [ih hg2 h22 h12]
  rw [hf] at h1
  exact Prod.ext h1 h2

theorem simpleStructSpec_noGroup (decls : List (String × List (Option String × String))) :
    (decls.map simpleStructSpec).any specReachesGroup = false := by
  induction decls with
  | nil => rfl
  | cons d rest ih =>
    simp only [List.map_cons, List.any_cons, ih, Bool.or_false]
    simp only [specReachesGroup, simpleStructSpec, fieldListReachesGroup]
    exact entriesReachGroup_simple d.2

theorem structEntries_simple (decls : List (String × List (Option String × String))) :
    structEntries (decls.map simpleStructSpec) = decls.map simpleStructEntry := by
  induction decls with
  | nil => rfl
  | cons d rest ih =>
    simp only [List.map_cons]
    rw [structEntries_cons, ih]
    simp [simpleStructSpec, simpleStructEntry, structEntries, addAll, addAllLoop_simple]

theorem interfaceEntries_simple (decls : List (String × List (Option String × String))) :
    interfaceEntries (decls.map simpleStructSpec) = [] := by
  induction decls with
  | nil => rfl
  | cons d rest ih =>
    simp only [List.map_cons]
    rw [interfaceEntries_cons, ih]
    simp [simpleStructSpec, interfaceEntries]

/-- C5: when the type declarations of a file are the struct declarations `decls`, each
field of which has an identifier type and at most one name, `Build` on a new builder
returns a nil error, `Interfaces` is empty, and `Structs` has one entry per declaration, in
order, with the declared name and, for each field in order, the `TypedField` of the field
name (empty for an embedded field) and the type identifier. -/
theorem Build_simple_structs (fileName : String) (parsedFile : Node)
    (decls : List (String × List (Option String × String)))
    (h : typeSpecs parsedFile = decls.map simpleStructSpec) :
    (NewFileBuilder fileName parsedFile).Build.2 = none ∧
    (NewFileBuilder fileName parsedFile).Build.1.File.Structs = decls.map simpleStructEntry ∧
    (NewFileBuilder fileName parsedFile).Build.1.File.Interfaces = [] := by
  have hs := walkSpecs_isSome (NewFileBuilder fileName parsedFile).File
    (decls.map simpleStructSpec)
  rw [simpleStructSpec_noGroup] at hs
  rw [Build_eq_walkSpecs]
  simp only [NewFileBuilder] at hs ⊢
  rw [h]
  refine ⟨?_, ?_, ?_⟩
  · cases hw : (walkSpecs _ (decls.map simpleStructSpec)).2 with
    | none => rfl
    | some e => rw [hw] at hs; simp at hs
  · rw [walkSpecs_file, reachedSpecs_of_none _ (simpleStructSpec_noGroup decls),
      structEntries_simple]
    simp
  · rw [walkSpecs_file, reachedSpecs_of_none _ (simpleStructSpec_noGroup decls),
      interfaceEntries_simple]
    simp

/-- C5 at `type P struct { X int; Y }; type Q struct {}`. -/
theorem Build_simple_structs_witness :
    (NewFileBuilder "p.go" simpleStructsFile).Build.2 = none ∧
    (NewFileBuilder "p.go" simpleStructsFile).Build.1.File.Structs =
      [⟨some [.TypedField "X" "int", .TypedField "" "Y"], "P"⟩, ⟨some [], "Q"⟩] ∧
    (NewFileBuilder "p.go" simpleStructsFile).Build.1.File.Interfaces = [] :=
  Build_simple_structs "p.go" simpleStructsFile
    [("P", [(some "X", "int"), (none, "Y")]), ("Q", [])] rfl

theorem structEntries_names (specs : List (String × Expr)) :
    (structEntries specs).map (fun s => s.Name) = structNames specs := by
  induction specs with
  | nil => rfl
  | cons d rest ih =>
    obtain ⟨name, typ⟩ := d
    cases typ <;> simp [structEntries, structNames, ih]

theorem interfaceEntries_names (specs : List (String × Expr)) :
    (interfaceEntries specs).map (fun s => s.Name) = interfaceNames specs := by
  induction specs with
  | nil => rfl
  | cons d rest ih =>
    obtain ⟨name, typ⟩ := d
    cases typ <;> simp [interfaceEntries, interfaceNames, ih]

theorem interfaceEntries_length (specs : List (String × Expr)) :
    (interfaceEntries specs).length = (interfaceNames specs).length := by
  rw [← interfaceEntries_names, List.length_map]

theorem newField_func_name (name : String) (params results : Option (List AstField))
    (x : Field) (h : newField name (.FuncType params results) = .ok x) :
    x.funcName = some name := by
  unfold newField at h
  rcases hp : addAll (some []) params with ⟨ps, _ | e⟩
  · rcases hr : addAll (some []) results with ⟨rs, _ | e⟩
    · simp [hp, hr] at h
      subst h
      rfl
    · simp [hp, hr] at h
  · simp [hp] at h

theorem methods_yield_funcs
    (sigs : List (String × Option (List AstField) × Option (List AstField)))
    (h : entriesReachGroup (sigs.map methodEntry) = false) :
    ((sigs.map methodEntry).filterMap yieldedField).map Field.funcName
      = sigs.map fun s => some s.1 := by
  induction sigs with
  | nil => rfl
  | cons s rest ih =>
    rw [List.map_cons, entriesReachGroup_cons] at h
    simp only [Bool.or_eq_false_iff] at h
    have hk := classify_isOk (methodEntry s)
    rw [h.1] at hk
    have hc : classify (methodEntry s) = newField s.1 (.FuncType s.2.1 s.2.2) := by
      simp [classify, methodEntry, fieldName_single]
    cases hx : newField s.1 (.FuncType s.2.1 s.2.2) with
    | error e => rw [hc, hx] at hk; simp [Except.isOk, Except.toBool] at hk
    | ok x =>
      have hname := newField_func_name s.1 s.2.1 s.2.2 x hx
      have hnil : x.isNil = false := by
        cases x with
        | Func n ps rs => rfl
        | _ => simp [Field.funcName] at hname
      have hy : yieldedField (methodEntry s) = some x := by
        simp [yieldedField, hc, hx, hnil]
      rw [List.map_cons, List.filterMap_cons_some hy, List.map_cons, List.map_cons, hname,
        ih h.2]

/-- C6, against the claim as it stands, on two files. The file
`type I interface { M(x, y int) }` declares an interface with one method signature, `Build`
fails on it, and the entry `I` it leaves has no field. The file
`type I interface { Stringer; M() }` declares an interface with one method signature next
to an embedded interface, `Build` succeeds, and the entry `I` has two fields, the first a
`TypedField`. -/
theorem Build_interface_not_one_func_per_method :
    ((NewFileBuilder "i.go" groupedMethodFile).Build.2
        = some [.str "more than one identifier", .idents ["x", "y"]] ∧
      (NewFileBuilder "i.go" groupedMethodFile).Build.1.File.Interfaces
        = [⟨some [], "I"⟩]) ∧
    ((NewFileBuilder "e.go" embeddedMethodFile).Build.2 = none ∧
      (NewFileBuilder "e.go" embeddedMethodFile).Build.1.File.Interfaces
        = [⟨some [.TypedField "" "Stringer", .Func "M" (some []) (some [])], "I"⟩]) :=
  ⟨⟨rfl, rfl⟩, ⟨rfl, rfl⟩⟩

/-- C6, amended: let the tree hold, after the type declarations `pre`, an interface
declaration whose method list consists of the method signatures `sigs` and nothing else
(one name and a function type each, no embedded interface), where neither a declaration of
`pre` nor a signature of `sigs` reaches an entry with two or more names, so that no
classification has failed when the interface is done. Then the entry of `Interfaces`
produced for it by `Build` on a new builder, the one after the entries of the interfaces of
`pre`, carries its name and a field list of the length of `sigs`, every entry of which is a
`Func` named as the corresponding method, in order, whatever the declarations after it. -/
theorem Build_interface_methods (fileName : String) (parsedFile : Node)
    (pre post : List (String × Expr)) (name : String)
    (sigs : List (String × Option (List AstField) × Option (List AstField)))
    (hspecs : typeSpecs parsedFile
      = pre ++ (name, .InterfaceType (some (sigs.map methodEntry))) :: post)
    (hpre : pre.any specReachesGroup = false)
    (hsigs : entriesReachGroup (sigs.map methodEntry) = false) :
    ∃ fl, (NewFileBuilder fileName parsedFile).Build.1.File.Interfaces[
        (interfaceNames pre).length]? = some ⟨some fl, name⟩ ∧
      fl.length = sigs.length ∧
      fl.map Field.funcName = sigs.map fun s => some s.1 := by
  have hD : specReachesGroup (name, .InterfaceType (some (sigs.map methodEntry))) = false :=
    hsigs
  have hadd : (addAllLoop (some []) (sigs.map methodEntry)).2 = none :=
    addAll_none_of_noGroup (some (sigs.map methodEntry)) hsigs
  have hfl := addAllLoop_of_ok (sigs.map methodEntry) hadd
  have hmap := methods_yield_funcs sigs hsigs
  refine ⟨(sigs.map methodEntry).filterMap yieldedField, ?_, ?_, hmap⟩
  · rw [Build_file]
    simp only [NewFileBuilder]
    rw [hspecs, reachedSpecs_append_of_none pre _ hpre, interfaceEntries_append]
    simp only [reachedSpecs, hD, Bool.false_eq_true, if_false, List.nil_append]
    rw [interfaceEntries_cons, ← interfaceEntries_length,
      List.getElem?_append_right (le_refl _)]
    simp [interfaceEntries, addAll, hfl]
  · have hl := congrArg List.length hmap
    simpa using hl

/-- C6 (amended) at `type S struct { A int }; type I interface { M(x int); N() bool }`. -/
theorem Build_interface_methods_witness :
    ∃ fl, (NewFileBuilder "m.go" twoMethodsFile).Build.1.File.Interfaces[0]?
        = some ⟨some fl, "I"⟩ ∧
      fl.length = 2 ∧ fl.map Field.funcName = [some "M", some "N"] :=
  Build_interface_methods "m.go" twoMethodsFile
    [("S", .StructType (some [.mk ["A"] (.Ident "int")]))] [] "I"
    [("M", some [.mk ["x"] (.Ident "int")], none),
     ("N", some [], some [.mk [] (.Ident "bool")])] rfl rfl rfl

theorem addAllLoop_of_yielded (xs : List Field) (l : List AstField) (ps : List Field)
    (h : l.map yieldedField = ps.map some) :
    addAllLoop (some xs) l = (some (xs ++ ps), none) := by
  induction l generalizing xs ps with
  | nil =>
    cases ps with
    | nil => simp [addAllLoop]
    | cons p rest => simp at h
  | cons fld rest ih =>
    cases ps with
    | nil => simp at h
    | cons p ps2 =>
      simp only [List.map_cons, List.cons.injEq] at h
      obtain ⟨h1, h2⟩ := h
      rw [addAllLoop_cons]
      unfold yieldedField at h1
      cases hc : classify fld with
      | error e => simp [hc] at h1
      | ok parsed =>
        simp only [hc] at h1
        dsimp only
        cases hnil : parsed.isNil with
        | true => simp [hnil] at h1
        | false =>
          simp only [hnil, Bool.false_eq_true, if_false, Option.some.injEq] at h1
          simp only [Bool.false_eq_true, if_false]
          rw [h1]
          have hstep := ih (xs ++ [p]) ps2 h2
          simpa [appendField, elemsOf] using hstep

theorem addAll_of_yielded (l : Option (List AstField)) (ps : List Field)
    (h : (entries l).map yieldedField = ps.map some) :
    addAll (some []) l = (some ps, none) := by
  cases l with
  | none =>
    cases ps with
    | nil => rfl
    | cons p rest => simp [entries] at h
  | some list => simpa [addAll] using addAllLoop_of_yielded [] list ps h

/-- C7, against the claim as it stands: on the signature `func(x, y int)` the call
`newField("F", e)` panics with the failure of `fieldName` and returns no `Func`. -/
theorem newField_grouped_params_fails :
    newField "F" (.FuncType (some [.mk ["x", "y"] (.Ident "int")]) none)
      = .error [.str "more than one identifier", .idents ["x", "y"]] :=
  rfl

/-- C7, amended: when every parameter entry and every result entry of the signature yields
a field (its classification does not fail and is not nil), `ps` and `rs` being those fields
in declaration order, `newField(n, e)` returns the `Func` of name `n` whose `Params` is the
allocated slice of `ps` and whose `Results` is the allocated slice of `rs`; an absent
result list has no entries and gives the empty slice, which is allocated, not nil. -/
theorem newField_func (name : String) (params results : Option (List AstField))
    (ps rs : List Field)
    (hp : (entries params).map yieldedField = ps.map some)
    (hr : (entries results).map yieldedField = rs.map some) :
    newField name (.FuncType params results) = .ok (.Func name (some ps) (some rs)) := by
  unfold newField
  rw [addAll_of_yielded params ps hp, addAll_of_yielded results rs hr]

/-- C7 (amended) at a signature with a single unnamed parameter of type `T` and no result
list: the parameters are the one field `TypedField "" T`, and the results are the empty
allocated slice `some []`, not the nil slice `none`. -/
theorem newField_func_witness :
    newField "F" (.FuncType (some [.mk [] (.Ident "T")]) none)
      = .ok (.Func "F" (some [.TypedField "" "T"]) (some [])) :=
  newField_func "F" (some [.mk [] (.Ident "T")]) none [.TypedField "" "T"] [] rfl rfl

/-- C8: for every field name, direction `d` and identifier `T`, the classification of the
type `chan T` of direction `d` is `Chan d (TypedField "" T)`, and `addAll` on an entry of
that type with one name appends exactly that field to the slice. -/
theorem newField_chan_ident (name : String) (d : ChanDir) (T : String) (f : FieldList) :
    newField name (.ChanType d (.Ident T)) = .ok (.Chan d (.TypedField "" T)) ∧
    addAll f (some [.mk [name] (.ChanType d (.Ident T))])
      = (some (elemsOf f ++ [.Chan d (.TypedField "" T)]), none) := by
  constructor
  · simp [newField]
  · simp [addAll, addAllLoop, fieldName, failIf, newField, Field.isNil, appendField]

/-- C9, as the code behaves: `Build` on `type S struct { C chan *int }` returns a nil error
and the field `Chan BOTH nil`, a channel whose inner field is nil. -/
theorem Build_chanPointerFile :
    ((NewFileBuilder "c.go" chanPointerFile).Build).2 = none ∧
    ((NewFileBuilder "c.go" chanPointerFile).Build).1.File.Structs
      = [⟨some [.Chan .BOTH .nil], "S"⟩] :=
  ⟨rfl, rfl⟩

/-- C10: the elements of the slice `addAll` leaves are those of the slice it was given
followed by the fields yielded by the entries it classified (all entries when none fails,
those before the first failing one otherwise), in the order of the entries; on an allocated
slice the result is the allocated slice of exactly these elements; an entry whose
classification is nil adds nothing, so a slice built from the empty one holds no nil
field. -/
theorem addAll_yielded_in_order (f : FieldList) (xs : List Field)
    (list : Option (List AstField)) :
    elemsOf (addAll f list).1
      = elemsOf f ++ ((entries list).takeWhile fun fld => (classify fld).isOk).filterMap
          yieldedField ∧
    (addAll (some xs) list).1
      = some (xs ++ ((entries list).takeWhile fun fld => (classify fld).isOk).filterMap
          yieldedField) ∧
    (elemsOf (addAll (some []) list).1).any Field.isNil = false := by
  refine ⟨?_, ?_, ?_⟩
  · cases list with
    | none => simp [addAll, entries]
    | some l => exact addAllLoop_elems f l
  · rw [addAll_acc]
    rfl
  · rw [addAll_fields]
    have h := yieldedBeforeFailure_nonnil (entries list)
    simpa [elemsOf] using h

/-! ## Whole trees, repeated builds and packages: auxiliary facts -/

theorem specReachesGroup_of_other (d : String × Expr)
    (h : d.2.isStructOrInterface = false) : specReachesGroup d = false := by
  obtain ⟨name, typ⟩ := d
  cases typ <;> simp [Expr.isStructOrInterface] at h <;> rfl

theorem structEntries_of_other (specs : List (String × Expr))
    (h : (specs.all fun d => !d.2.isStructOrInterface) = true) :
    structEntries specs = [] := by
  induction specs with
  | nil => rfl
  | cons d rest ih =>
    simp only [List.all_cons, Bool.and_eq_true, Bool.not_eq_true'] at h
    obtain ⟨name, typ⟩ := d
    rw [structEntries_cons, ih h.2]
    cases typ <;> simp [Expr.isStructOrInterface] at h <;> rfl

theorem interfaceEntries_of_other (specs : List (String × Expr))
    (h : (specs.all fun d => !d.2.isStructOrInterface) = true) :
    interfaceEntries specs = [] := by
  induction specs with
  | nil => rfl
  | cons d rest ih =>
    simp only [List.all_cons, Bool.and_eq_true, Bool.not_eq_true'] at h
    obtain ⟨name, typ⟩ := d
    rw [interfaceEntries_cons, ih h.2]
    cases typ <;> simp [Expr.isStructOrInterface] at h <;> rfl

theorem noGroup_of_other (specs : List (String × Expr))
    (h : (specs.all fun d => !d.2.isStructOrInterface) = true) :
    specs.any specReachesGroup = false := by
  induction specs with
  | nil => rfl
  | cons d rest ih =>
    simp only [List.all_cons, Bool.and_eq_true, Bool.not_eq_true'] at h
    simp [List.any_cons, specReachesGroup_of_other d h.1, ih h.2]

theorem walkSpecs_none_of_noGroup (f : File) (specs : List (String × Expr))
    (h : specs.any specReachesGroup = false) : (walkSpecs f specs).2 = none := by
  have hs := walkSpecs_isSome f specs
  rw [h] at hs
  cases hw : (walkSpecs f specs).2 with
  | none => rfl
  | some e => rw [hw] at hs; simp at hs

theorem noGroup_of_walkSpecs_none (f : File) (specs : List (String × Expr))
    (h : (walkSpecs f specs).2 = none) : specs.any specReachesGroup = false := by
  have hs := walkSpecs_isSome f specs
  rw [h] at hs
  simpa using hs.symm

/-- C11, against the claim as it stands: the one top-level declaration of the file
`func f() { type T struct { A, B int } }` is a function, the file has no top-level type
declaration, and yet `Build` returns an error and a `File` with the struct entry `T`. -/
theorem Build_localTypeFile :
    topLevelSpecs localTypeFile = [] ∧
    (NewFileBuilder "l.go" localTypeFile).Build.2
      = some [.str "more than one identifier", .idents ["A", "B"]] ∧
    (NewFileBuilder "l.go" localTypeFile).Build.1.File.Structs = [⟨some [], "T"⟩] :=
  ⟨rfl, rfl, rfl⟩

/-- C11, amended: when no type declaration anywhere in the tree, at top level, nested in
another declaration or below a type expression, is a struct or interface declaration,
`Build` on a new builder returns a nil error and a `File` whose `Structs` and `Interfaces`
are both empty. -/
theorem Build_without_records (fileName : String) (parsedFile : Node)
    (h : ((typeSpecs parsedFile).all fun d => !d.2.isStructOrInterface) = true) :
    (NewFileBuilder fileName parsedFile).Build.2 = none ∧
    (NewFileBuilder fileName parsedFile).Build.1.File.Structs = [] ∧
    (NewFileBuilder fileName parsedFile).Build.1.File.Interfaces = [] := by
  have hg := noGroup_of_other _ h
  rw [Build_eq_walkSpecs]
  simp only [NewFileBuilder]
  refine ⟨walkSpecs_none_of_noGroup _ _ hg, ?_, ?_⟩
  · rw [walkSpecs_file, reachedSpecs_of_none _ hg, structEntries_of_other _ h]
    rfl
  · rw [walkSpecs_file, reachedSpecs_of_none _ hg, interfaceEntries_of_other _ h]
    rfl

/-- C11 (amended) at the file `const c = 1`, `var v int`, `type A int`,
`type F func(x, y int)`, `func g() {}`. -/
theorem Build_without_records_witness :
    ((typeSpecs noRecordFile).all fun d => !d.2.isStructOrInterface) = true ∧
    (NewFileBuilder "n.go" noRecordFile).Build.2 = none ∧
    (NewFileBuilder "n.go" noRecordFile).Build.1.File.Structs = [] ∧
    (NewFileBuilder "n.go" noRecordFile).Build.1.File.Interfaces = [] :=
  ⟨rfl, Build_without_records "n.go" noRecordFile rfl⟩

/-- C12: let the type declarations of the tree be `pre`, then the struct (or interface)
declaration `name`, then `post`, where no declaration of `pre` fails, the entries `before`
of the member list of `name` classify without failure and the next entry `fld` fails with
`e`. Then `Build` returns `e`; the last element of `Structs` (of `Interfaces` for an
interface) is the entry `name` with exactly the fields yielded by `before`; before it stand
the entries the file had and the entries of `pre`, each with the fields yielded by all its
member entries; and the other list holds the entries it had and the complete ones of
`pre`. -/
theorem Build_keeps_fields_before_failure (b : FileBuilder)
    (pre post : List (String × Expr)) (name : String) (isStruct : Bool)
    (before after : List AstField) (fld : AstField) (e : Failure)
    (hspecs : typeSpecs b.parsed
      = pre ++ (name, memberDecl isStruct (before ++ fld :: after)) :: post)
    (hpre : pre.any specReachesGroup = false)
    (hbefore : (before.all fun x => (classify x).isOk) = true)
    (hfld : classify fld = .error e) :
    b.Build.2 = some e ∧
    b.Build.1.File.Structs = b.File.Structs ++ fullStructEntries pre ++
      (if isStruct then [⟨some (before.filterMap yieldedField), name⟩] else []) ∧
    b.Build.1.File.Interfaces = b.File.Interfaces ++ fullInterfaceEntries pre ++
      (if isStruct then [] else [⟨some (before.filterMap yieldedField), name⟩]) :=
  Build_fails_at b pre post name isStruct before after fld e hspecs hpre hbefore hfld

/-- C12 at `type I interface { M() }`, `type S struct { A int; P *int; B, C int; D int }`,
`type T struct {}`: the build fails at the third entry of `S`; `S` is the last struct entry
and holds the field of `A` (the entry `P` yields none), and `I` is complete. -/
theorem Build_keeps_fields_before_failure_witness :
    (NewFileBuilder "b.go" brokenThirdFile).Build.2
      = some [.str "more than one identifier", .idents ["B", "C"]] ∧
    (NewFileBuilder "b.go" brokenThirdFile).Build.1.File.Structs
      = [⟨some [.TypedField "A" "int"], "S"⟩] ∧
    (NewFileBuilder "b.go" brokenThirdFile).Build.1.File.Interfaces
      = [⟨some [.Func "M" (some []) (some [])], "I"⟩] :=
  Build_keeps_fields_before_failure (NewFileBuilder "b.go" brokenThirdFile)
    [("I", .InterfaceType (some [.mk ["M"] (.FuncType (some []) none)]))]
    [("T", .StructType (some []))] "S" true
    [.mk ["A"] (.Ident "int"), .mk ["P"] (.StarExpr (.Ident "int"))]
    [.mk ["D"] (.Ident "int")] (.mk ["B", "C"] (.Ident "int"))
    [.str "more than one identifier", .idents ["B", "C"]] rfl rfl rfl rfl

/-- C14: `Build` returns an error exactly when some struct or interface declaration of the
tree reaches an entry with two or more names, in its member list or, through function types
and channel element types, in a parameter or result list below it. -/
theorem Build_fails_iff_grouped_names (b : FileBuilder) :
    b.Build.2 ≠ none ↔ b.parsed.reachesGroup = true := by
  have hs := walkSpecs_isSome b.File (typeSpecs b.parsed)
  rw [Build_eq_walkSpecs]
  simp only [Node.reachesGroup]
  rw [← hs]
  cases (walkSpecs b.File (typeSpecs b.parsed)).2 <;> simp

/-- C14 at `type S struct { X [len(func() { type T struct { A, B int } })]int }` followed
by `type U struct {}`: the struct `T` declared inside the array length is visited, and its
entry `A, B` makes `Build` fail. -/
theorem Build_fails_iff_grouped_names_witness :
    (NewFileBuilder "n.go" nestedLiteralFile).Build.2 ≠ none :=
  (Build_fails_iff_grouped_names (NewFileBuilder "n.go" nestedLiteralFile)).mpr rfl

/-- C15: `Types.Struct` and `Types.Interface` put one new entry with an empty field list at
the end of their own list and leave the earlier entries and the other list as they were,
whatever names are already present; and when `Build` on a new builder returns a nil error,
the names of `Structs` and of `Interfaces` are those of the struct and of the interface
declarations anywhere in the tree, one entry each, in visit order, so the lengths are the
numbers of those declarations. -/
theorem Build_one_entry_per_declaration (fileName : String) (parsedFile : Node)
    (w : Types) (name : String)
    (hok : (NewFileBuilder fileName parsedFile).Build.2 = none) :
    (w.Struct name).Structs = w.Structs ++ [⟨some [], name⟩] ∧
    (w.Struct name).Interfaces = w.Interfaces ∧
    (w.Interface name).Interfaces = w.Interfaces ++ [⟨some [], name⟩] ∧
    (w.Interface name).Structs = w.Structs ∧
    (NewFileBuilder fileName parsedFile).Build.1.File.Structs.map (fun s => s.Name)
      = structNames (typeSpecs parsedFile) ∧
    (NewFileBuilder fileName parsedFile).Build.1.File.Interfaces.map (fun s => s.Name)
      = interfaceNames (typeSpecs parsedFile) ∧
    (NewFileBuilder fileName parsedFile).Build.1.File.Structs.length
      = (structNames (typeSpecs parsedFile)).length ∧
    (NewFileBuilder fileName parsedFile).Build.1.File.Interfaces.length
      = (interfaceNames (typeSpecs parsedFile)).length := by
  rw [Build_eq_walkSpecs] at hok ⊢
  simp only [NewFileBuilder] at hok ⊢
  have hg := noGroup_of_walkSpecs_none _ _ hok
  have h1 : (walkSpecs { Interfaces := [], Structs := [], Name := fileName }
      (typeSpecs parsedFile)).1.Structs.map (fun s => s.Name)
        = structNames (typeSpecs parsedFile) := by
    rw [walkSpecs_file, reachedSpecs_of_none _ hg]
    simp [structEntries_names]
  have h2 : (walkSpecs { Interfaces := [], Structs := [], Name := fileName }
      (typeSpecs parsedFile)).1.Interfaces.map (fun s => s.Name)
        = interfaceNames (typeSpecs parsedFile) := by
    rw [walkSpecs_file, reachedSpecs_of_none _ hg]
    simp [interfaceEntries_names]
  refine ⟨rfl, rfl, rfl, rfl, h1, h2, ?_, ?_⟩
  · have h := congrArg List.length h1
    simpa using h
  · have h := congrArg List.length h2
    simpa using h

/-- C15 at `type S struct { A int; X [len(func() { type S struct {} })]int }`,
`func f() { type S struct {}; type I interface {} }`, `type J interface { M() }`: three
entries named `S`, the second from the array length and the third from the function
body. -/
theorem Build_one_entry_per_declaration_witness :
    (NewFileBuilder "d.go" sameNameFile).Build.1.File.Structs.map (fun s => s.Name)
      = ["S", "S", "S"] ∧
    (NewFileBuilder "d.go" sameNameFile).Build.1.File.Interfaces.map (fun s => s.Name)
      = ["I", "J"] :=
  ⟨(Build_one_entry_per_declaration "d.go" sameNameFile ⟨[], []⟩ "S" rfl).2.2.2.2.1,
   (Build_one_entry_per_declaration "d.go" sameNameFile ⟨[], []⟩ "S" rfl).2.2.2.2.2.1⟩

/-- C16: for every channel type expression and all names `n1`, `n2`, `newField` returns the
same result under both names, and `addAll` does the same on two entries that differ only in
their one name. -/
theorem newField_chan_ignores_name (n1 n2 : String) (dir : ChanDir) (value : Expr)
    (f : FieldList) :
    newField n1 (.ChanType dir value) = newField n2 (.ChanType dir value) ∧
    addAll f (some [.mk [n1] (.ChanType dir value)])
      = addAll f (some [.mk [n2] (.ChanType dir value)]) := by
  have h : newField n1 (.ChanType dir value) = newField n2 (.ChanType dir value) := by
    rw [newField, newField]
  refine ⟨h, ?_⟩
  simp only [addAll]
  rw [addAllLoop_cons, addAllLoop_cons]
  simp only [classify, fieldName_single]
  rw [h]

/-- C17: when `Build` on a new builder returns a nil error, a second call on the same
builder returns a nil error too, and after it `Structs` and `Interfaces` are the lists the
first call left followed by the same entries again, of twice the length. -/
theorem Build_twice_doubles (fileName : String) (parsedFile : Node)
    (hok : (NewFileBuilder fileName parsedFile).Build.2 = none) :
    (NewFileBuilder fileName parsedFile).Build.1.Build.2 = none ∧
    (NewFileBuilder fileName parsedFile).Build.1.Build.1.File.Structs
      = (NewFileBuilder fileName parsedFile).Build.1.File.Structs
        ++ (NewFileBuilder fileName parsedFile).Build.1.File.Structs ∧
    (NewFileBuilder fileName parsedFile).Build.1.Build.1.File.Interfaces
      = (NewFileBuilder fileName parsedFile).Build.1.File.Interfaces
        ++ (NewFileBuilder fileName parsedFile).Build.1.File.Interfaces ∧
    (NewFileBuilder fileName parsedFile).Build.1.Build.1.File.Structs.length
      = 2 * (NewFileBuilder fileName parsedFile).Build.1.File.Structs.length ∧
    (NewFileBuilder fileName parsedFile).Build.1.Build.1.File.Interfaces.length
      = 2 * (NewFileBuilder fileName parsedFile).Build.1.File.Interfaces.length := by
  rw [Build_eq_walkSpecs] at hok
  simp only [NewFileBuilder] at hok
  have hg := noGroup_of_walkSpecs_none _ _ hok
  have hS : (NewFileBuilder fileName parsedFile).Build.1.Build.1.File.Structs
      = (NewFileBuilder fileName parsedFile).Build.1.File.Structs
        ++ (NewFileBuilder fileName parsedFile).Build.1.File.Structs := by
    simp only [Build_eq_walkSpecs, NewFileBuilder, walkSpecs_file]
    rw [reachedSpecs_of_none _ hg]
    simp
  have hI : (NewFileBuilder fileName parsedFile).Build.1.Build.1.File.Interfaces
      = (NewFileBuilder fileName parsedFile).Build.1.File.Interfaces
        ++ (NewFileBuilder fileName parsedFile).Build.1.File.Interfaces := by
    simp only [Build_eq_walkSpecs, NewFileBuilder, walkSpecs_file]
    rw [reachedSpecs_of_none _ hg]
    simp
  refine ⟨?_, hS, hI, ?_, ?_⟩
  · simp only [Build_eq_walkSpecs, NewFileBuilder]
    exact walkSpecs_none_of_noGroup _ _ hg
  · rw [hS, List.length_append]
    omega
  · rw [hI, List.length_append]
    omega

/-- C17 at `type S struct { A int; X [len(func() { type S struct {} })]int }`,
`func f() { type S struct {}; type I interface {} }`, `type J interface { M() }`: six
struct entries and four interface entries after the second call. -/
theorem Build_twice_doubles_witness :
    (NewFileBuilder "d.go" sameNameFile).Build.1.Build.1.File.Structs
      = [⟨some [.TypedField "A" "int"], "S"⟩, ⟨some [], "S"⟩, ⟨some [], "S"⟩,
         ⟨some [.TypedField "A" "int"], "S"⟩, ⟨some [], "S"⟩, ⟨some [], "S"⟩] ∧
    (NewFileBuilder "d.go" sameNameFile).Build.1.Build.1.File.Interfaces
      = [⟨some [], "I"⟩, ⟨some [.Func "M" (some []) (some [])], "J"⟩,
         ⟨some [], "I"⟩, ⟨some [.Func "M" (some []) (some [])], "J"⟩] :=
  ⟨(Build_twice_doubles "d.go" sameNameFile rfl).2.1,
   (Build_twice_doubles "d.go" sameNameFile rfl).2.2.1⟩

theorem buildLoop_member (env : Outside) (dir : String) (files : List File)
    (name : String) (rest : List String) (h : HasSuffix name ".go" = true) :
    PackageBuilder.buildLoop env dir files (name :: rest) =
      match fileOutcome env (env.Join dir name) with
      | .error err => .error (env.Join dir name ++ ": " ++ err)
      | .ok file => PackageBuilder.buildLoop env dir (files ++ [file]) rest := by
  rw [PackageBuilder.buildLoop]
  simp only [h, Bool.not_true, Bool.false_eq_true, if_false]
  unfold NewFileBuilderAt fileOutcome
  cases env.ParseFile (env.Join dir name) with
  | error err => rfl
  | ok parsedFile =>
    dsimp only
    rcases (NewFileBuilder (env.Join dir name) parsedFile).Build with ⟨built, _ | e⟩ <;> rfl

theorem buildLoop_outcome (env : Outside) (dir : String) (files : List File)
    (names : List String) :
    PackageBuilder.buildLoop env dir files names =
      match ((names.filter fun name => HasSuffix name ".go").map (env.Join dir)).find?
          (fun q => !(fileOutcome env q).isOk) with
      | some q => .error (q ++ ": " ++ outcomeText (fileOutcome env q))
      | none => .ok ⟨files ++
          ((names.filter fun name => HasSuffix name ".go").map (env.Join dir)).filterMap
            fun q => (fileOutcome env q).toOption⟩ := by
  induction names generalizing files with
  | nil => simp [PackageBuilder.buildLoop]
  | cons name rest ih =>
    cases hs : HasSuffix name ".go" with
    | false =>
      rw [PackageBuilder.buildLoop]
      simp only [hs, Bool.not_false, if_true]
      rw [ih files, List.filter_cons_of_neg (by simp [hs])]
    | true =>
      rw [buildLoop_member env dir files name rest hs, List.filter_cons_of_pos (by simp [hs]),
        List.map_cons]
      cases ho : fileOutcome env (env.Join dir name) with
      | error err =>
        simp [List.find?_cons, ho, Except.isOk, Except.toBool, outcomeText]
      | ok file =>
        have hy : (fileOutcome env (env.Join dir name)).toOption = some file := by
          simp [ho, Except.toOption]
        have hk : (fileOutcome env (env.Join dir name)).isOk = true := by
          simp [ho, Except.isOk, Except.toBool]
        simp only [List.filterMap_cons, hy, List.find?_cons, hk, Bool.not_true]
        rw [ih (files ++ [file])]
        simp only [List.append_assoc, List.singleton_append]

/-- C13: with the member paths the directory joined with each listed name ending in `.go`,
in listing order, `PackageBuilder.Build` returns, when some member file fails to parse or
to build, no package and the error whose text is the path of the first such file, then
`: `, then the text of that file's error, whatever the files listed after it; and when
none fails, the package whose `Files` are the models of the member files, one per member
path, in listing order. -/
theorem PackageBuilder_Build_outcome (env : Outside) (p : PackageBuilder) :
    p.Build env =
      match (memberPaths env p).find? (fun q => !(fileOutcome env q).isOk) with
      | some q => .error (q ++ ": " ++ outcomeText (fileOutcome env q))
      | none => .ok ⟨(memberPaths env p).filterMap fun q => (fileOutcome env q).toOption⟩ := by
  rw [PackageBuilder.Build, buildLoop_outcome]
  simp [memberPaths]

/-- C13 at the directory `d` listing `a.go`, `notes.txt`, `b.go`, `c.go`, where `b.go`
fails to build and `c.go` fails to parse: the error names `d/b.go`, the first to fail,
and ends in the text of its build error. -/
theorem PackageBuilder_Build_outcome_witness :
    PackageBuilder.Build sampleOutside ⟨⟨"d", ["a.go", "notes.txt", "b.go", "c.go"]⟩⟩
      = .error "d/b.go: more than one identifier[A B]" :=
  (PackageBuilder_Build_outcome sampleOutside
    ⟨⟨"d", ["a.go", "notes.txt", "b.go", "c.go"]⟩⟩).trans rfl

end Introspect
